import Mathlib

/-!
Verification development for the DICOM header de-identification tool
(src/pydicom/pydicom_deid.py).

The Python source is shallowly embedded:

* The proleptic Gregorian calendar arithmetic performed by the standard
  library (datetime.strptime, timedelta addition, strftime) is modelled by
  the YMD structure together with nextDate / prevDate / addDays.  Python's
  datetime is bounded to years 1..9999; shifting outside that range raises
  OverflowError, which the embedding models by returning none.
* Datasets (pydicom Dataset objects) are association lists from
  (group, element) tag pairs to elements carrying a VR string and a value
  string; reading ds[tag] is alGet, mutating ds[tag].value is alInsert.
* process_dicom_file is a pure function from a dataset and the two lookup
  maps to a Disposition: processed (save_as to the output tree),
  unprocessed (shutil.copy2 of the original bytes to the unprocessed tree),
  or raised (an uncaught Python exception: nothing is written and the
  exception propagates to the caller, which has no handler).
-/

set_option autoImplicit false

namespace DicomDeid

/-- A calendar date: year, month, day.  Python's datetime restricts the year
to 1..9999 at its parse and overflow checks; the model keeps the year an
unrestricted integer and imposes the bound where the library does. -/
structure YMD where
  y : Int
  m : Nat
  d : Nat
deriving DecidableEq, Repr

/-- Gregorian leap-year test, as performed by Python's datetime module. -/
def isLeap (y : Int) : Bool :=
  (y % 4 == 0 && y % 100 != 0) || y % 400 == 0

/-- Number of days in a month of a given year (Gregorian calendar). -/
def daysInMonth (y : Int) (m : Nat) : Nat :=
  if m = 2 then (if isLeap y then 29 else 28)
  else if m = 4 ∨ m = 6 ∨ m = 9 ∨ m = 11 then 30
  else 31

/-- A date is valid when the month is 1..12 and the day fits the month. -/
def validYMD : YMD → Bool
  | ⟨y, m, d⟩ =>
    decide (1 ≤ m) && decide (m ≤ 12) && decide (1 ≤ d) &&
      decide (d ≤ daysInMonth y m)

/-- The calendar successor of a date (the +1 day step of timedelta
arithmetic). -/
def nextDate : YMD → YMD
  | ⟨y, m, d⟩ =>
    if d < daysInMonth y m then ⟨y, m, d + 1⟩
    else if m < 12 then ⟨y, m + 1, 1⟩
    else ⟨y + 1, 1, 1⟩

/-- The calendar predecessor of a date (the -1 day step of timedelta
arithmetic). -/
def prevDate : YMD → YMD
  | ⟨y, m, d⟩ =>
    if 2 ≤ d then ⟨y, m, d - 1⟩
    else if 2 ≤ m then ⟨y, m - 1, daysInMonth y (m - 1)⟩
    else ⟨y - 1, 12, 31⟩

/-- Add an integer number of days to a date: the semantics of
date + timedelta(days = n) on the unbounded proleptic Gregorian calendar. -/
def addDays (t : YMD) (n : Int) : YMD :=
  if 0 ≤ n then nextDate^[n.toNat] t else prevDate^[(-n).toNat] t

theorem one_le_daysInMonth (y : Int) (m : Nat) : 1 ≤ daysInMonth y m := by
  unfold daysInMonth
  split
  · split <;> omega
  · split <;> omega

theorem daysInMonth_le (y : Int) (m : Nat) : daysInMonth y m ≤ 31 := by
  unfold daysInMonth
  split
  · split <;> omega
  · split <;> omega

theorem daysInMonth_twelve (y : Int) : daysInMonth y 12 = 31 := by
  simp [daysInMonth]

theorem validYMD_mk (y : Int) (m d : Nat) :
    validYMD ⟨y, m, d⟩ = true ↔
      1 ≤ m ∧ m ≤ 12 ∧ 1 ≤ d ∧ d ≤ daysInMonth y m := by
  simp [validYMD, and_assoc]

theorem nextDate_valid (t : YMD) (h : validYMD t = true) :
    validYMD (nextDate t) = true := by
  obtain ⟨y, m, d⟩ := t
  rw [validYMD_mk] at h
  obtain ⟨hm1, hm2, hd1, hd2⟩ := h
  by_cases h1 : d < daysInMonth y m
  · simp only [nextDate, if_pos h1]
    rw [validYMD_mk]
    omega
  · by_cases h2 : m < 12
    · simp only [nextDate, if_neg h1, if_pos h2]
      rw [validYMD_mk]
      exact ⟨by omega, by omega, by omega, one_le_daysInMonth y (m + 1)⟩
    · simp only [nextDate, if_neg h1, if_neg h2]
      rw [validYMD_mk]
      exact ⟨by omega, by omega, by omega, one_le_daysInMonth (y + 1) 1⟩

theorem prevDate_valid (t : YMD) (h : validYMD t = true) :
    validYMD (prevDate t) = true := by
  obtain ⟨y, m, d⟩ := t
  rw [validYMD_mk] at h
  obtain ⟨hm1, hm2, hd1, hd2⟩ := h
  by_cases h1 : 2 ≤ d
  · simp only [prevDate, if_pos h1]
    rw [validYMD_mk]
    omega
  · by_cases h2 : 2 ≤ m
    · simp only [prevDate, if_neg h1, if_pos h2]
      rw [validYMD_mk]
      exact ⟨by omega, by omega, one_le_daysInMonth y (m - 1), le_refl _⟩
    · simp only [prevDate, if_neg h1, if_neg h2]
      rw [validYMD_mk]
      have h31 := daysInMonth_twelve (y - 1)
      omega

theorem prevDate_nextDate (t : YMD) (h : validYMD t = true) :
    prevDate (nextDate t) = t := by
  obtain ⟨y, m, d⟩ := t
  rw [validYMD_mk] at h
  obtain ⟨hm1, hm2, hd1, hd2⟩ := h
  by_cases h1 : d < daysInMonth y m
  · simp only [nextDate, if_pos h1]
    simp only [prevDate, if_pos (show 2 ≤ d + 1 by omega)]
    simp
  · by_cases h2 : m < 12
    · simp only [nextDate, if_neg h1, if_pos h2]
      simp only [prevDate, if_neg (show ¬ (2 ≤ 1) by omega),
        if_pos (show 2 ≤ m + 1 by omega)]
      simp only [Nat.add_sub_cancel, YMD.mk.injEq]
      exact ⟨trivial, trivial, by omega⟩
    · have hm12 : m = 12 := by omega
      subst hm12
      have h31 := daysInMonth_twelve y
      simp only [nextDate, if_neg h1, if_neg h2]
      simp only [prevDate, if_neg (show ¬ (2 ≤ 1) by omega)]
      simp only [YMD.mk.injEq]
      exact ⟨by omega, trivial, by omega⟩

theorem nextDate_prevDate (t : YMD) (h : validYMD t = true) :
    nextDate (prevDate t) = t := by
  obtain ⟨y, m, d⟩ := t
  rw [validYMD_mk] at h
  obtain ⟨hm1, hm2, hd1, hd2⟩ := h
  by_cases h1 : 2 ≤ d
  · simp only [prevDate, if_pos h1]
    simp only [nextDate, if_pos (show d - 1 < daysInMonth y m by omega)]
    simp only [YMD.mk.injEq]
    exact ⟨trivial, trivial, by omega⟩
  · by_cases h2 : 2 ≤ m
    · simp only [prevDate, if_neg h1, if_pos h2]
      simp only [nextDate, if_neg (lt_irrefl (daysInMonth y (m - 1))),
        if_pos (show m - 1 < 12 by omega)]
      simp only [YMD.mk.injEq]
      exact ⟨trivial, by omega, by omega⟩
    · simp only [prevDate, if_neg h1, if_neg h2]
      have h31 := daysInMonth_twelve (y - 1)
      simp only [nextDate, if_neg (show ¬ (31 < daysInMonth (y - 1) 12) by omega),
        if_neg (show ¬ (12 < 12) by omega)]
      simp only [YMD.mk.injEq]
      exact ⟨by omega, by omega, by omega⟩

theorem nextDate_iter_valid (k : Nat) (t : YMD) (h : validYMD t = true) :
    validYMD (nextDate^[k] t) = true := by
  induction k generalizing t with
  | zero => simpa using h
  | succ n ih =>
    rw [Function.iterate_succ_apply]
    exact ih (nextDate t) (nextDate_valid t h)

theorem prevDate_iter_valid (k : Nat) (t : YMD) (h : validYMD t = true) :
    validYMD (prevDate^[k] t) = true := by
  induction k generalizing t with
  | zero => simpa using h
  | succ n ih =>
    rw [Function.iterate_succ_apply]
    exact ih (prevDate t) (prevDate_valid t h)

theorem prevDate_iter_nextDate_iter (k : Nat) (t : YMD) (h : validYMD t = true) :
    prevDate^[k] (nextDate^[k] t) = t := by
  induction k with
  | zero => rfl
  | succ n ih =>
    rw [Function.iterate_succ_apply' nextDate n t, Function.iterate_succ_apply prevDate n]
    rw [prevDate_nextDate _ (nextDate_iter_valid n t h)]
    exact ih

theorem nextDate_iter_prevDate_iter (k : Nat) (t : YMD) (h : validYMD t = true) :
    nextDate^[k] (prevDate^[k] t) = t := by
  induction k with
  | zero => rfl
  | succ n ih =>
    rw [Function.iterate_succ_apply' prevDate n t, Function.iterate_succ_apply nextDate n]
    rw [nextDate_prevDate _ (prevDate_iter_valid n t h)]
    exact ih

theorem addDays_valid (t : YMD) (n : Int) (h : validYMD t = true) :
    validYMD (addDays t n) = true := by
  unfold addDays
  split
  · exact nextDate_iter_valid _ t h
  · exact prevDate_iter_valid _ t h

theorem addDays_neg_cancel (t : YMD) (n : Int) (h : validYMD t = true) :
    addDays (addDays t n) (-n) = t := by
  rcases lt_trichotomy n 0 with hn | hn | hn
  · have h1 : addDays t n = prevDate^[(-n).toNat] t := by
      unfold addDays
      rw [if_neg (by omega)]
    have h2 : addDays (prevDate^[(-n).toNat] t) (-n) =
        nextDate^[(-n).toNat] (prevDate^[(-n).toNat] t) := by
      unfold addDays
      rw [if_pos (by omega)]
    rw [h1, h2]
    exact nextDate_iter_prevDate_iter (-n).toNat t h
  · subst hn
    norm_num [addDays]
  · have h1 : addDays t n = nextDate^[n.toNat] t := by
      unfold addDays
      rw [if_pos (by omega)]
    have h2 : addDays (nextDate^[n.toNat] t) (-n) =
        prevDate^[n.toNat] (nextDate^[n.toNat] t) := by
      unfold addDays
      rw [if_neg (by omega), neg_neg]
    rw [h1, h2]
    exact prevDate_iter_nextDate_iter n.toNat t h

/-- Numeric value of an ASCII digit character; none on any other character.
This models the character classes of the strptime digit patterns. -/
def digitVal (c : Char) : Option Nat :=
  if 48 ≤ c.toNat ∧ c.toNat ≤ 57 then some (c.toNat - 48) else none

/-- The ASCII digit character for a value below ten. -/
def digitChar (k : Nat) : Char :=
  Char.ofNat (48 + k)

/-- Two-digit zero-padded decimal rendering, as produced by strftime for
the month, day, hour, minute and second fields. -/
def pad2 (n : Nat) : List Char :=
  [digitChar (n / 10 % 10), digitChar (n % 10)]

/-- Four-digit zero-padded decimal rendering, as produced by strftime for
the year field. -/
def pad4 (n : Nat) : List Char :=
  [digitChar (n / 1000 % 10), digitChar (n / 100 % 10),
   digitChar (n / 10 % 10), digitChar (n % 10)]

/-- Parse two consecutive digit characters as a two-digit number. -/
def d2 (a b : Char) : Option Nat := do
  let x ← digitVal a
  let y ← digitVal b
  pure (10 * x + y)

/-- Parse four consecutive digit characters as a four-digit number. -/
def d4 (a b c d : Char) : Option Nat := do
  let x ← d2 a b
  let y ← d2 c d
  pure (100 * x + y)

theorem digitVal_lt (c : Char) (k : Nat) (h : digitVal c = some k) : k < 10 := by
  unfold digitVal at h
  split at h
  · injection h with h
    have := c.toNat
    omega
  · exact absurd h (by simp)

theorem digitChar_digitVal (c : Char) (k : Nat) (h : digitVal c = some k) :
    digitChar k = c := by
  unfold digitVal at h
  split at h
  · injection h with h
    subst h
    unfold digitChar
    rename_i hc
    rw [show 48 + (c.toNat - 48) = c.toNat by omega]
    exact Char.ofNat_toNat c
  · exact absurd h (by simp)

theorem digitVal_digitChar (k : Nat) (h : k < 10) :
    digitVal (digitChar k) = some k := by
  interval_cases k <;> decide

theorem d2_some (a b : Char) (x : Nat) (h : d2 a b = some x) :
    x < 100 ∧ pad2 x = [a, b] := by
  unfold d2 at h
  cases ha : digitVal a with
  | none => rw [ha] at h; exact absurd h (by simp)
  | some va =>
    cases hb : digitVal b with
    | none => rw [ha, hb] at h; exact absurd h (by simp)
    | some vb =>
      rw [ha, hb] at h
      simp only [Option.bind_eq_bind, Option.some_bind, Option.pure_def,
        Option.some.injEq] at h
      have hva := digitVal_lt a va ha
      have hvb := digitVal_lt b vb hb
      subst h
      refine ⟨by omega, ?_⟩
      unfold pad2
      rw [show (10 * va + vb) / 10 % 10 = va by omega,
        show (10 * va + vb) % 10 = vb by omega,
        digitChar_digitVal a va ha, digitChar_digitVal b vb hb]

theorem d2_pad2 (x : Nat) (h : x < 100) :
    d2 (digitChar (x / 10 % 10)) (digitChar (x % 10)) = some x := by
  have e1 := digitVal_digitChar (x / 10 % 10) (by omega)
  have e2 := digitVal_digitChar (x % 10) (by omega)
  unfold d2
  rw [e1, e2]
  simp only [Option.bind_eq_bind, Option.some_bind, Option.pure_def,
    Option.some.injEq]
  omega

theorem d4_some (a b c d : Char) (x : Nat) (h : d4 a b c d = some x) :
    x < 10000 ∧ pad4 x = [a, b, c, d] := by
  unfold d4 at h
  cases hhi : d2 a b with
  | none => rw [hhi] at h; exact absurd h (by simp)
  | some hi =>
    cases hlo : d2 c d with
    | none => rw [hhi, hlo] at h; exact absurd h (by simp)
    | some lo =>
      rw [hhi, hlo] at h
      simp only [Option.bind_eq_bind, Option.some_bind, Option.pure_def,
        Option.some.injEq] at h
      obtain ⟨hi100, hpadhi⟩ := d2_some a b hi hhi
      obtain ⟨lo100, hpadlo⟩ := d2_some c d lo hlo
      subst h
      simp only [pad2, List.cons.injEq, and_true] at hpadhi hpadlo
      refine ⟨by omega, ?_⟩
      unfold pad4
      rw [show (100 * hi + lo) / 1000 % 10 = hi / 10 % 10 by omega,
        show (100 * hi + lo) / 100 % 10 = hi % 10 by omega,
        show (100 * hi + lo) / 10 % 10 = lo / 10 % 10 by omega,
        show (100 * hi + lo) % 10 = lo % 10 by omega,
        hpadhi.1, hpadhi.2, hpadlo.1, hpadlo.2]

theorem d4_pad4 (x : Nat) (h : x < 10000) :
    d4 (digitChar (x / 1000 % 10)) (digitChar (x / 100 % 10))
      (digitChar (x / 10 % 10)) (digitChar (x % 10)) = some x := by
  have e1 : d2 (digitChar (x / 1000 % 10)) (digitChar (x / 100 % 10)) =
      some (x / 100) := by
    have hq := d2_pad2 (x / 100) (by omega)
    rw [show x / 100 / 10 % 10 = x / 1000 % 10 by omega] at hq
    exact hq
  have e2 : d2 (digitChar (x / 10 % 10)) (digitChar (x % 10)) =
      some (x % 100) := by
    have hq := d2_pad2 (x % 100) (by omega)
    rw [show x % 100 / 10 % 10 = x / 10 % 10 by omega,
      show x % 100 % 10 = x % 10 by omega] at hq
    exact hq
  unfold d4
  rw [e1, e2]
  simp only [Option.bind_eq_bind, Option.some_bind, Option.pure_def,
    Option.some.injEq]
  omega

/-- Alternation candidates of the strptime month pattern 1[0-2]|0[1-9]|[1-9]:
each candidate is a parsed value with the unconsumed remainder, in the
preference order of the regular expression.  The enclosing matcher tries
candidates in order and moves to the next only when a later field fails,
exactly like the regex engine's backtracking. -/
def mCands : List Char → List (Nat × List Char)
  | [] => []
  | [c] => if 49 ≤ c.toNat ∧ c.toNat ≤ 57 then [(c.toNat - 48, [])] else []
  | c :: c2 :: rest2 =>
    (if c.toNat = 49 ∧ 48 ≤ c2.toNat ∧ c2.toNat ≤ 50 then
      [(10 + (c2.toNat - 48), rest2)]
    else if c.toNat = 48 ∧ 49 ≤ c2.toNat ∧ c2.toNat ≤ 57 then
      [(c2.toNat - 48, rest2)]
    else []) ++
    (if 49 ≤ c.toNat ∧ c.toNat ≤ 57 then [(c.toNat - 48, c2 :: rest2)] else [])

/-- Alternation candidates of the strptime day pattern
3[0-1]|[1-2]d|0[1-9]|[1-9]|space[1-9] (the last alternative accepts a
space-padded single digit), in preference order. -/
def dCands : List Char → List (Nat × List Char)
  | [] => []
  | [c] => if 49 ≤ c.toNat ∧ c.toNat ≤ 57 then [(c.toNat - 48, [])] else []
  | c :: c2 :: rest2 =>
    (if c.toNat = 51 ∧ 48 ≤ c2.toNat ∧ c2.toNat ≤ 49 then
      [(30 + (c2.toNat - 48), rest2)]
    else if (c.toNat = 49 ∨ c.toNat = 50) ∧ 48 ≤ c2.toNat ∧ c2.toNat ≤ 57 then
      [((c.toNat - 48) * 10 + (c2.toNat - 48), rest2)]
    else if c.toNat = 48 ∧ 49 ≤ c2.toNat ∧ c2.toNat ≤ 57 then
      [(c2.toNat - 48, rest2)]
    else []) ++
    (if 49 ≤ c.toNat ∧ c.toNat ≤ 57 then [(c.toNat - 48, c2 :: rest2)] else []) ++
    (if c.toNat = 32 ∧ 49 ≤ c2.toNat ∧ c2.toNat ≤ 57 then
      [(c2.toNat - 48, rest2)]
    else [])

/-- Alternation candidates of the strptime hour pattern 2[0-3]|[0-1]d|d. -/
def hCands : List Char → List (Nat × List Char)
  | [] => []
  | [c] => if 48 ≤ c.toNat ∧ c.toNat ≤ 57 then [(c.toNat - 48, [])] else []
  | c :: c2 :: rest2 =>
    (if c.toNat = 50 ∧ 48 ≤ c2.toNat ∧ c2.toNat ≤ 51 then
      [(20 + (c2.toNat - 48), rest2)]
    else if (c.toNat = 48 ∨ c.toNat = 49) ∧ 48 ≤ c2.toNat ∧ c2.toNat ≤ 57 then
      [((c.toNat - 48) * 10 + (c2.toNat - 48), rest2)]
    else []) ++
    (if 48 ≤ c.toNat ∧ c.toNat ≤ 57 then [(c.toNat - 48, c2 :: rest2)] else [])

/-- Alternation candidates of the strptime minute pattern [0-5]d|d. -/
def miCands : List Char → List (Nat × List Char)
  | [] => []
  | [c] => if 48 ≤ c.toNat ∧ c.toNat ≤ 57 then [(c.toNat - 48, [])] else []
  | c :: c2 :: rest2 =>
    (if 48 ≤ c.toNat ∧ c.toNat ≤ 53 ∧ 48 ≤ c2.toNat ∧ c2.toNat ≤ 57 then
      [((c.toNat - 48) * 10 + (c2.toNat - 48), rest2)]
    else []) ++
    (if 48 ≤ c.toNat ∧ c.toNat ≤ 57 then [(c.toNat - 48, c2 :: rest2)] else [])

/-- Alternation candidates of the strptime second pattern 6[0-1]|[0-5]d|d
(60 and 61 pass the regex but are rejected later by the datetime
constructor). -/
def sCands : List Char → List (Nat × List Char)
  | [] => []
  | [c] => if 48 ≤ c.toNat ∧ c.toNat ≤ 57 then [(c.toNat - 48, [])] else []
  | c :: c2 :: rest2 =>
    (if c.toNat = 54 ∧ 48 ≤ c2.toNat ∧ c2.toNat ≤ 49 then
      [(60 + (c2.toNat - 48), rest2)]
    else if 48 ≤ c.toNat ∧ c.toNat ≤ 53 ∧ 48 ≤ c2.toNat ∧ c2.toNat ≤ 57 then
      [((c.toNat - 48) * 10 + (c2.toNat - 48), rest2)]
    else []) ++
    (if 48 ≤ c.toNat ∧ c.toNat ≤ 57 then [(c.toNat - 48, c2 :: rest2)] else [])

/-- First successful continuation over a candidate list: the backbone of
regex alternation with backtracking. -/
def firstSome {α β : Type} (f : α → Option β) : List α → Option β
  | [] => none
  | a :: as =>
    match f a with
    | some b => some b
    | none => firstSome f as

/-- The month-day tail of the DA format: try month candidates in order,
then day candidates; the pattern ends after the day, so the first
candidate pair wins and any remainder is left over (the leftover test
happens after matching, as in strptime). -/
def matchMD (cs : List Char) : Option (Nat × Nat × List Char) :=
  firstSome (fun p =>
    firstSome (fun q => some (p.1, q.1, q.2)) (dCands p.2)) (mCands cs)

/-- The month-day-hour-minute-second tail of the DT format, with full
backtracking between fields. -/
def matchMDHMS (cs : List Char) :
    Option (Nat × Nat × Nat × Nat × Nat × List Char) :=
  firstSome (fun pm =>
    firstSome (fun pd =>
      firstSome (fun ph =>
        firstSome (fun pq =>
          firstSome (fun ps => some (pm.1, pd.1, ph.1, pq.1, ps.1, ps.2))
            (sCands pq.2))
          (miCands ph.2))
        (hCands pd.2))
      (dCands pm.2))
    (mCands cs)

/-- Model of datetime.strptime(s, "%Y%m%d"): four digits of year (regex
d{4}), then the flexible month and day patterns; after the regex match,
strptime raises "unconverted data remains" when characters are left, and
the datetime constructor validates the calendar fields (year 1..9999,
month 1..12, day within the month). -/
def strptimeDA (cs : List Char) : Option YMD :=
  match cs with
  | c1 :: c2 :: c3 :: c4 :: rest => do
    let y ← d4 c1 c2 c3 c4
    let md ← matchMD rest
    if md.2.2 = [] then
      if 1 ≤ y ∧ validYMD ⟨(y : Int), md.1, md.2.1⟩ = true then
        some ⟨(y : Int), md.1, md.2.1⟩
      else none
    else none
  | _ => none

/-- Model of datetime.strptime(s, "%Y%m%d%H%M%S"), as strptimeDA plus the
hour, minute and second fields; the constructor additionally rejects
seconds of 60 or 61 that the regex lets through. -/
def strptimeDT (cs : List Char) : Option (YMD × Nat × Nat × Nat) :=
  match cs with
  | c1 :: c2 :: c3 :: c4 :: rest => do
    let y ← d4 c1 c2 c3 c4
    let q ← matchMDHMS rest
    if q.2.2.2.2.2 = [] then
      if 1 ≤ y ∧ validYMD ⟨(y : Int), q.1, q.2.1⟩ = true ∧ q.2.2.1 ≤ 23 ∧
          q.2.2.2.1 ≤ 59 ∧ q.2.2.2.2.1 ≤ 59 then
        some (⟨(y : Int), q.1, q.2.1⟩, q.2.2.1, q.2.2.2.1, q.2.2.2.2.1)
      else none
    else none
  | _ => none

/-- The year as rendered by strftime %Y on this platform (and by pydicom's
DA string rendering): decimal digits with no zero padding, so years below
1000 occupy fewer than four characters.  Years above 9999 cannot arise
(the overflow guard keeps shifts within 1..9999). -/
def yearChars (n : Nat) : List Char :=
  if n < 10 then [digitChar n]
  else if n < 100 then [digitChar (n / 10), digitChar (n % 10)]
  else if n < 1000 then
    [digitChar (n / 100), digitChar (n / 10 % 10), digitChar (n % 10)]
  else pad4 n

/-- Render a date as strftime("%Y%m%d") does: unpadded year, two-digit
month and day. -/
def formatYMD : YMD → List Char
  | ⟨y, m, d⟩ => yearChars y.toNat ++ pad2 m ++ pad2 d

/-- Model of shift_da (src/pydicom/pydicom_deid.py line 37): parse the
string with strptime "%Y%m%d", add the day offset with timedelta
arithmetic, and re-render.  Returns none where Python raises: unparseable
or calendar-invalid input (ValueError) or a shifted date outside
datetime's year range 1..9999 (OverflowError). -/
def shift_da (s : String) (days : Int) : Option String := do
  let t ← strptimeDA s.data
  if 1 ≤ (addDays t days).y ∧ (addDays t days).y ≤ 9999 then
    pure (String.mk (formatYMD (addDays t days)))
  else none

/-- Model of shift_dt (src/pydicom/pydicom_deid.py line 41): parse str[:14]
(at most 14 characters) with strptime "%Y%m%d%H%M%S", shift the date part
by the day offset (timedelta days leave the time of day unchanged),
re-render, and append the characters beyond the 14th verbatim.  Returns
none where Python raises. -/
def shift_dt (s : String) (days : Int) : Option String := do
  let r ← strptimeDT (s.data.take 14)
  if 1 ≤ (addDays r.1 days).y ∧ (addDays r.1 days).y ≤ 9999 then
    pure (String.mk (formatYMD (addDays r.1 days) ++ pad2 r.2.1 ++
      pad2 r.2.2.1 ++ pad2 r.2.2.2 ++ s.data.drop 14))
  else none

example : shift_da "20230101" 10 = some "20230111" := by decide
example : shift_da "20240228" 2 = some "20240301" := by decide
example : shift_da "99991231" 1 = none := by decide
example : shift_da "2023011" 0 = some "20230101" := by decide
example : shift_da "500115" 0 = some "50010105" := by decide
example : shift_da "00500115" 0 = some "500115" := by decide
example : shift_dt "20230101235959.123" 31 = some "20230201235959.123" := by decide
example : shift_dt "20230101" 0 = none := by decide
example : shift_dt "2023010112345" 0 = some "20230101123405" := by decide
example : shift_dt "202301011234" 0 = some "20230101120304" := by decide
example : shift_dt "20230101000061" 0 = none := by decide

theorem formatYMD_def (t : YMD) :
    formatYMD t = yearChars t.y.toNat ++ pad2 t.m ++ pad2 t.d := by
  cases t
  rfl

theorem validYMD_iff (t : YMD) :
    validYMD t = true ↔
      1 ≤ t.m ∧ t.m ≤ 12 ∧ 1 ≤ t.d ∧ t.d ≤ daysInMonth t.y t.m := by
  cases t with
  | mk y m d => exact validYMD_mk y m d

theorem digitChar_toNat (k : Nat) (h : k < 10) : (digitChar k).toNat = 48 + k := by
  interval_cases k <;> decide

theorem digitChar_toNat_eq (c : Char) (k : Nat) (h : c.toNat = 48 + k) :
    digitChar k = c := by
  unfold digitChar
  rw [← h]
  exact Char.ofNat_toNat c

theorem two_char_shape (c c2 : Char) (r : List Char) (x : Nat)
    (hx10 : x / 10 % 10 = c.toNat - 48) (hx1 : x % 10 = c2.toNat - 48)
    (hc : 48 ≤ c.toNat) (hc2 : 48 ≤ c2.toNat) :
    pad2 x ++ r = c :: c2 :: r := by
  simp only [pad2]
  rw [hx10, hx1, digitChar_toNat_eq c (c.toNat - 48) (by omega),
    digitChar_toNat_eq c2 (c2.toNat - 48) (by omega)]
  rfl

theorem yearChars_pad4 (n : Nat) (h : 1000 ≤ n) : yearChars n = pad4 n := by
  unfold yearChars
  rw [if_neg (by omega), if_neg (by omega), if_neg (by omega)]

theorem yearChars_four (n : Nat) (h : (yearChars n).length = 4) : 1000 ≤ n := by
  unfold yearChars at h
  by_cases h1 : n < 10
  · rw [if_pos h1] at h
    simp at h
  · rw [if_neg h1] at h
    by_cases h2 : n < 100
    · rw [if_pos h2] at h
      simp at h
    · rw [if_neg h2] at h
      by_cases h3 : n < 1000
      · rw [if_pos h3] at h
        simp at h
      · omega

theorem firstSome_eq_some {α β : Type} (f : α → Option β) :
    ∀ (l : List α) (b : β), firstSome f l = some b → ∃ a ∈ l, f a = some b := by
  intro l
  induction l with
  | nil =>
    intro b h
    simp [firstSome] at h
  | cons a as ih =>
    intro b h
    cases hfa : f a with
    | some b2 =>
      have h' : some b2 = some b := by
        rw [← h]
        simp [firstSome, hfa]
      injection h' with h''
      exact ⟨a, List.mem_cons_self a as, h'' ▸ hfa⟩
    | none =>
      have h' : firstSome f as = some b := by
        rw [← h]
        simp [firstSome, hfa]
      obtain ⟨a2, ha2, hfa2⟩ := ih b h'
      exact ⟨a2, List.mem_cons_of_mem a ha2, hfa2⟩

theorem firstSome_cons_some {α β : Type} (f : α → Option β) (a : α)
    (l : List α) (b : β) (h : f a = some b) :
    firstSome f (a :: l) = some b := by
  simp [firstSome, h]

theorem mCands_mem (cs : List Char) (x : Nat) (r : List Char)
    (h : (x, r) ∈ mCands cs) :
    1 ≤ x ∧ x ≤ 12 ∧ r.length < cs.length ∧ cs.length ≤ r.length + 2 ∧
      (cs.length = r.length + 2 → cs = pad2 x ++ r) := by
  match cs with
  | [] => simp [mCands] at h
  | [c] =>
    simp only [mCands] at h
    by_cases h1 : 49 ≤ c.toNat ∧ c.toNat ≤ 57
    · rw [if_pos h1] at h
      simp only [List.mem_singleton, Prod.mk.injEq] at h
      obtain ⟨hx, hr⟩ := h
      subst hx
      subst hr
      refine ⟨by omega, by omega, by simp, by simp, ?_⟩
      intro hc
      exfalso
      simp at hc
    · rw [if_neg h1] at h
      simp at h
  | c :: c2 :: rest2 =>
    simp only [mCands, List.mem_append] at h
    rcases h with h | h
    · by_cases h1 : c.toNat = 49 ∧ 48 ≤ c2.toNat ∧ c2.toNat ≤ 50
      · rw [if_pos h1] at h
        simp only [List.mem_singleton, Prod.mk.injEq] at h
        obtain ⟨hx, hr⟩ := h
        subst hx
        subst hr
        refine ⟨by omega, by omega, by simp only [List.length_cons]; omega,
          by simp only [List.length_cons]; omega, ?_⟩
        intro _
        exact (two_char_shape c c2 r _ (by omega) (by omega) (by omega)
          (by omega)).symm
      · rw [if_neg h1] at h
        by_cases h2 : c.toNat = 48 ∧ 49 ≤ c2.toNat ∧ c2.toNat ≤ 57
        · rw [if_pos h2] at h
          simp only [List.mem_singleton, Prod.mk.injEq] at h
          obtain ⟨hx, hr⟩ := h
          subst hx
          subst hr
          refine ⟨by omega, by omega, by simp only [List.length_cons]; omega,
            by simp only [List.length_cons]; omega, ?_⟩
          intro _
          exact (two_char_shape c c2 r _ (by omega) (by omega) (by omega)
            (by omega)).symm
        · rw [if_neg h2] at h
          simp at h
    · by_cases h1 : 49 ≤ c.toNat ∧ c.toNat ≤ 57
      · rw [if_pos h1] at h
        simp only [List.mem_singleton, Prod.mk.injEq] at h
        obtain ⟨hx, hr⟩ := h
        subst hx
        subst hr
        refine ⟨by omega, by omega, by simp only [List.length_cons]; omega,
          by simp only [List.length_cons]; omega, ?_⟩
        intro hc
        exfalso
        simp only [List.length_cons] at hc
        omega
      · rw [if_neg h1] at h
        simp at h

theorem dCands_mem (cs : List Char) (x : Nat) (r : List Char)
    (h : (x, r) ∈ dCands cs) :
    1 ≤ x ∧ x ≤ 31 ∧ r.length < cs.length ∧ cs.length ≤ r.length + 2 ∧
      (cs.length = r.length + 2 →
        cs = pad2 x ++ r ∨ cs.head? = some (Char.ofNat 32)) := by
  match cs with
  | [] => simp [dCands] at h
  | [c] =>
    simp only [dCands] at h
    by_cases h1 : 49 ≤ c.toNat ∧ c.toNat ≤ 57
    · rw [if_pos h1] at h
      simp only [List.mem_singleton, Prod.mk.injEq] at h
      obtain ⟨hx, hr⟩ := h
      subst hx
      subst hr
      refine ⟨by omega, by omega, by simp, by simp, ?_⟩
      intro hc
      exfalso
      simp at hc
    · rw [if_neg h1] at h
      simp at h
  | c :: c2 :: rest2 =>
    simp only [dCands, List.mem_append] at h
    rcases h with (h | h) | h
    · by_cases h1 : c.toNat = 51 ∧ 48 ≤ c2.toNat ∧ c2.toNat ≤ 49
      · rw [if_pos h1] at h
        simp only [List.mem_singleton, Prod.mk.injEq] at h
        obtain ⟨hx, hr⟩ := h
        subst hx
        subst hr
        refine ⟨by omega, by omega, by simp only [List.length_cons]; omega,
          by simp only [List.length_cons]; omega, ?_⟩
        intro _
        exact Or.inl (two_char_shape c c2 r _ (by omega) (by omega)
          (by omega) (by omega)).symm
      · rw [if_neg h1] at h
        by_cases h2 : (c.toNat = 49 ∨ c.toNat = 50) ∧ 48 ≤ c2.toNat ∧
            c2.toNat ≤ 57
        · rw [if_pos h2] at h
          simp only [List.mem_singleton, Prod.mk.injEq] at h
          obtain ⟨hx, hr⟩ := h
          subst hx
          subst hr
          obtain ⟨hc49, hc2r⟩ := h2
          refine ⟨by omega, by omega, by simp only [List.length_cons]; omega,
            by simp only [List.length_cons]; omega, ?_⟩
          intro _
          exact Or.inl (two_char_shape c c2 r _ (by omega) (by omega)
            (by omega) (by omega)).symm
        · rw [if_neg h2] at h
          by_cases h3 : c.toNat = 48 ∧ 49 ≤ c2.toNat ∧ c2.toNat ≤ 57
          · rw [if_pos h3] at h
            simp only [List.mem_singleton, Prod.mk.injEq] at h
            obtain ⟨hx, hr⟩ := h
            subst hx
            subst hr
            refine ⟨by omega, by omega, by simp only [List.length_cons]; omega,
              by simp only [List.length_cons]; omega, ?_⟩
            intro _
            exact Or.inl (two_char_shape c c2 r _ (by omega) (by omega)
              (by omega) (by omega)).symm
          · rw [if_neg h3] at h
            simp at h
    · by_cases h1 : 49 ≤ c.toNat ∧ c.toNat ≤ 57
      · rw [if_pos h1] at h
        simp only [List.mem_singleton, Prod.mk.injEq] at h
        obtain ⟨hx, hr⟩ := h
        subst hx
        subst hr
        refine ⟨by omega, by omega, by simp only [List.length_cons]; omega,
          by simp only [List.length_cons]; omega, ?_⟩
        intro hc
        exfalso
        simp only [List.length_cons] at hc
        omega
      · rw [if_neg h1] at h
        simp at h
    · by_cases h1 : c.toNat = 32 ∧ 49 ≤ c2.toNat ∧ c2.toNat ≤ 57
      · rw [if_pos h1] at h
        simp only [List.mem_singleton, Prod.mk.injEq] at h
        obtain ⟨hx, hr⟩ := h
        subst hx
        subst hr
        refine ⟨by omega, by omega, by simp only [List.length_cons]; omega,
          by simp only [List.length_cons]; omega, ?_⟩
        intro _
        refine Or.inr ?_
        have hc : c = Char.ofNat 32 := by
          rw [show (32 : Nat) = c.toNat by omega]
          exact (Char.ofNat_toNat c).symm
        rw [hc]
        rfl
      · rw [if_neg h1] at h
        simp at h

theorem hCands_mem (cs : List Char) (x : Nat) (r : List Char)
    (h : (x, r) ∈ hCands cs) :
    x ≤ 23 ∧ r.length < cs.length ∧ cs.length ≤ r.length + 2 ∧
      (cs.length = r.length + 2 → cs = pad2 x ++ r) := by
  match cs with
  | [] => simp [hCands] at h
  | [c] =>
    simp only [hCands] at h
    by_cases h1 : 48 ≤ c.toNat ∧ c.toNat ≤ 57
    · rw [if_pos h1] at h
      simp only [List.mem_singleton, Prod.mk.injEq] at h
      obtain ⟨hx, hr⟩ := h
      subst hx
      subst hr
      refine ⟨by omega, by simp, by simp, ?_⟩
      intro hc
      exfalso
      simp at hc
    · rw [if_neg h1] at h
      simp at h
  | c :: c2 :: rest2 =>
    simp only [hCands, List.mem_append] at h
    rcases h with h | h
    · by_cases h1 : c.toNat = 50 ∧ 48 ≤ c2.toNat ∧ c2.toNat ≤ 51
      · rw [if_pos h1] at h
        simp only [List.mem_singleton, Prod.mk.injEq] at h
        obtain ⟨hx, hr⟩ := h
        subst hx
        subst hr
        refine ⟨by omega, by simp only [List.length_cons]; omega,
          by simp only [List.length_cons]; omega, ?_⟩
        intro _
        exact (two_char_shape c c2 r _ (by omega) (by omega) (by omega)
          (by omega)).symm
      · rw [if_neg h1] at h
        by_cases h2 : (c.toNat = 48 ∨ c.toNat = 49) ∧ 48 ≤ c2.toNat ∧
            c2.toNat ≤ 57
        · rw [if_pos h2] at h
          simp only [List.mem_singleton, Prod.mk.injEq] at h
          obtain ⟨hx, hr⟩ := h
          subst hx
          subst hr
          obtain ⟨hc49, hc2r⟩ := h2
          refine ⟨by omega, by simp only [List.length_cons]; omega,
            by simp only [List.length_cons]; omega, ?_⟩
          intro _
          exact (two_char_shape c c2 r _ (by omega) (by omega) (by omega)
            (by omega)).symm
        · rw [if_neg h2] at h
          simp at h
    · by_cases h1 : 48 ≤ c.toNat ∧ c.toNat ≤ 57
      · rw [if_pos h1] at h
        simp only [List.mem_singleton, Prod.mk.injEq] at h
        obtain ⟨hx, hr⟩ := h
        subst hx
        subst hr
        refine ⟨by omega, by simp only [List.length_cons]; omega,
          by simp only [List.length_cons]; omega, ?_⟩
        intro hc
        exfalso
        simp only [List.length_cons] at hc
        omega
      · rw [if_neg h1] at h
        simp at h

theorem miCands_mem (cs : List Char) (x : Nat) (r : List Char)
    (h : (x, r) ∈ miCands cs) :
    x ≤ 59 ∧ r.length < cs.length ∧ cs.length ≤ r.length + 2 ∧
      (cs.length = r.length + 2 → cs = pad2 x ++ r) := by
  match cs with
  | [] => simp [miCands] at h
  | [c] =>
    simp only [miCands] at h
    by_cases h1 : 48 ≤ c.toNat ∧ c.toNat ≤ 57
    · rw [if_pos h1] at h
      simp only [List.mem_singleton, Prod.mk.injEq] at h
      obtain ⟨hx, hr⟩ := h
      subst hx
      subst hr
      refine ⟨by omega, by simp, by simp, ?_⟩
      intro hc
      exfalso
      simp at hc
    · rw [if_neg h1] at h
      simp at h
  | c :: c2 :: rest2 =>
    simp only [miCands, List.mem_append] at h
    rcases h with h | h
    · by_cases h1 : 48 ≤ c.toNat ∧ c.toNat ≤ 53 ∧ 48 ≤ c2.toNat ∧ c2.toNat ≤ 57
      · rw [if_pos h1] at h
        simp only [List.mem_singleton, Prod.mk.injEq] at h
        obtain ⟨hx, hr⟩ := h
        subst hx
        subst hr
        refine ⟨by omega, by simp only [List.length_cons]; omega,
          by simp only [List.length_cons]; omega, ?_⟩
        intro _
        exact (two_char_shape c c2 r _ (by omega) (by omega) (by omega)
          (by omega)).symm
      · rw [if_neg h1] at h
        simp at h
    · by_cases h1 : 48 ≤ c.toNat ∧ c.toNat ≤ 57
      · rw [if_pos h1] at h
        simp only [List.mem_singleton, Prod.mk.injEq] at h
        obtain ⟨hx, hr⟩ := h
        subst hx
        subst hr
        refine ⟨by omega, by simp only [List.length_cons]; omega,
          by simp only [List.length_cons]; omega, ?_⟩
        intro hc
        exfalso
        simp only [List.length_cons] at hc
        omega
      · rw [if_neg h1] at h
        simp at h

theorem sCands_mem (cs : List Char) (x : Nat) (r : List Char)
    (h : (x, r) ∈ sCands cs) :
    x ≤ 61 ∧ r.length < cs.length ∧ cs.length ≤ r.length + 2 ∧
      (cs.length = r.length + 2 → cs = pad2 x ++ r) := by
  match cs with
  | [] => simp [sCands] at h
  | [c] =>
    simp only [sCands] at h
    by_cases h1 : 48 ≤ c.toNat ∧ c.toNat ≤ 57
    · rw [if_pos h1] at h
      simp only [List.mem_singleton, Prod.mk.injEq] at h
      obtain ⟨hx, hr⟩ := h
      subst hx
      subst hr
      refine ⟨by omega, by simp, by simp, ?_⟩
      intro hc
      exfalso
      simp at hc
    · rw [if_neg h1] at h
      simp at h
  | c :: c2 :: rest2 =>
    simp only [sCands, List.mem_append] at h
    rcases h with h | h
    · by_cases h1 : c.toNat = 54 ∧ 48 ≤ c2.toNat ∧ c2.toNat ≤ 49
      · rw [if_pos h1] at h
        simp only [List.mem_singleton, Prod.mk.injEq] at h
        obtain ⟨hx, hr⟩ := h
        subst hx
        subst hr
        refine ⟨by omega, by simp only [List.length_cons]; omega,
          by simp only [List.length_cons]; omega, ?_⟩
        intro _
        exact (two_char_shape c c2 r _ (by omega) (by omega) (by omega)
          (by omega)).symm
      · rw [if_neg h1] at h
        by_cases h2 : 48 ≤ c.toNat ∧ c.toNat ≤ 53 ∧ 48 ≤ c2.toNat ∧
            c2.toNat ≤ 57
        · rw [if_pos h2] at h
          simp only [List.mem_singleton, Prod.mk.injEq] at h
          obtain ⟨hx, hr⟩ := h
          subst hx
          subst hr
          refine ⟨by omega, by simp only [List.length_cons]; omega,
            by simp only [List.length_cons]; omega, ?_⟩
          intro _
          exact (two_char_shape c c2 r _ (by omega) (by omega) (by omega)
            (by omega)).symm
        · rw [if_neg h2] at h
          simp at h
    · by_cases h1 : 48 ≤ c.toNat ∧ c.toNat ≤ 57
      · rw [if_pos h1] at h
        simp only [List.mem_singleton, Prod.mk.injEq] at h
        obtain ⟨hx, hr⟩ := h
        subst hx
        subst hr
        refine ⟨by omega, by simp only [List.length_cons]; omega,
          by simp only [List.length_cons]; omega, ?_⟩
        intro hc
        exfalso
        simp only [List.length_cons] at hc
        omega
      · rw [if_neg h1] at h
        simp at h

/-- Every character of the list is an ASCII digit. -/
def allDigits (cs : List Char) : Bool :=
  cs.all (fun c => decide (48 ≤ c.toNat) && decide (c.toNat ≤ 57))

theorem allDigits_mem (cs : List Char) (c : Char) (h : allDigits cs = true)
    (hc : c ∈ cs) : 48 ≤ c.toNat ∧ c.toNat ≤ 57 := by
  simp only [allDigits, List.all_eq_true] at h
  have hmem := h c hc
  simp only [Bool.and_eq_true, decide_eq_true_eq] at hmem
  exact hmem

theorem allDigits_suffix (l1 l2 : List Char)
    (h : allDigits (l1 ++ l2) = true) : allDigits l2 = true := by
  simp only [allDigits, List.all_append, Bool.and_eq_true] at h
  exact h.2

theorem not_space_head (rm : List Char) (hdig : allDigits rm = true)
    (hne : rm ≠ []) : rm.head? ≠ some (Char.ofNat 32) := by
  cases rm with
  | nil => exact absurd rfl hne
  | cons c rest =>
    simp only [List.head?_cons, ne_eq, Option.some.injEq]
    intro hc
    have hd := allDigits_mem (c :: rest) c hdig (List.mem_cons_self c rest)
    rw [hc] at hd
    have h32 : (Char.ofNat 32).toNat = 32 := by decide
    omega

theorem matchMD_eq_some (cs : List Char) (md : Nat × Nat × List Char)
    (h : matchMD cs = some md) :
    ∃ rm, (md.1, rm) ∈ mCands cs ∧ (md.2.1, md.2.2) ∈ dCands rm := by
  unfold matchMD at h
  obtain ⟨p, hp, h2⟩ := firstSome_eq_some _ _ _ h
  obtain ⟨q, hq, h3⟩ := firstSome_eq_some _ _ _ h2
  injection h3 with h3
  subst h3
  exact ⟨p.2, by simpa using hp, by simpa using hq⟩

theorem matchMDHMS_eq_some (cs : List Char)
    (q : Nat × Nat × Nat × Nat × Nat × List Char) (h : matchMDHMS cs = some q) :
    ∃ r1 r2 r3 r4, (q.1, r1) ∈ mCands cs ∧ (q.2.1, r2) ∈ dCands r1 ∧
      (q.2.2.1, r3) ∈ hCands r2 ∧ (q.2.2.2.1, r4) ∈ miCands r3 ∧
      (q.2.2.2.2.1, q.2.2.2.2.2) ∈ sCands r4 := by
  unfold matchMDHMS at h
  obtain ⟨pm, hpm, h2⟩ := firstSome_eq_some _ _ _ h
  obtain ⟨pd, hpd, h3⟩ := firstSome_eq_some _ _ _ h2
  obtain ⟨ph, hph, h4⟩ := firstSome_eq_some _ _ _ h3
  obtain ⟨pq, hpq, h5⟩ := firstSome_eq_some _ _ _ h4
  obtain ⟨ps, hps, h6⟩ := firstSome_eq_some _ _ _ h5
  injection h6 with h6
  subst h6
  exact ⟨pm.2, pd.2, ph.2, pq.2, by simpa using hpm, by simpa using hpd,
    by simpa using hph, by simpa using hpq, by simpa using hps⟩

theorem matchMD_four (cs : List Char) (m d : Nat)
    (h : matchMD cs = some (m, d, [])) (hlen : cs.length = 4)
    (hdig : allDigits cs = true) :
    1 ≤ m ∧ m ≤ 12 ∧ 1 ≤ d ∧ d ≤ 31 ∧ cs = pad2 m ++ pad2 d := by
  obtain ⟨rm, hm, hd⟩ := matchMD_eq_some cs (m, d, []) h
  obtain ⟨hm1, hm2, hmlt, hmle, hmshape⟩ := mCands_mem cs m rm hm
  obtain ⟨hd1, hd2, hdlt, hdle, hdshape⟩ := dCands_mem rm d [] hd
  simp only [List.length_nil] at hdlt hdle hdshape
  have hcs : cs = pad2 m ++ rm := hmshape (by omega)
  have hdigrm : allDigits rm = true := by
    rw [hcs] at hdig
    exact allDigits_suffix _ _ hdig
  rcases hdshape (by omega) with hrm | hhead
  · rw [List.append_nil] at hrm
    exact ⟨hm1, hm2, hd1, hd2, by rw [hcs, hrm]⟩
  · exact absurd hhead (not_space_head rm hdigrm
      (by intro h0; rw [h0] at hdlt; simp at hdlt))

theorem matchMDHMS_ten (cs : List Char) (m d hh mi ss : Nat)
    (h : matchMDHMS cs = some (m, d, hh, mi, ss, []))
    (hlen : cs.length = 10) (hdig : allDigits cs = true) :
    1 ≤ m ∧ m ≤ 12 ∧ 1 ≤ d ∧ d ≤ 31 ∧ hh ≤ 23 ∧ mi ≤ 59 ∧ ss ≤ 61 ∧
      cs = pad2 m ++ (pad2 d ++ (pad2 hh ++ (pad2 mi ++ pad2 ss))) := by
  obtain ⟨r1, r2, r3, r4, hm, hd, hhh, hmi, hss⟩ :=
    matchMDHMS_eq_some cs (m, d, hh, mi, ss, []) h
  obtain ⟨hm1, hm2, hl1, hl1b, hs1⟩ := mCands_mem cs m r1 hm
  obtain ⟨hd1, hd2, hl2, hl2b, hs2⟩ := dCands_mem r1 d r2 hd
  obtain ⟨hh1, hl3, hl3b, hs3⟩ := hCands_mem r2 hh r3 hhh
  obtain ⟨hmi1, hl4, hl4b, hs4⟩ := miCands_mem r3 mi r4 hmi
  obtain ⟨hss1, hl5, hl5b, hs5⟩ := sCands_mem r4 ss [] hss
  simp only [List.length_nil] at hl5 hl5b hs5
  have e1 : cs = pad2 m ++ r1 := hs1 (by omega)
  have hdig1 : allDigits r1 = true := by
    rw [e1] at hdig
    exact allDigits_suffix _ _ hdig
  have e2 : r1 = pad2 d ++ r2 := by
    rcases hs2 (by omega) with h2 | h2
    · exact h2
    · exact absurd h2 (not_space_head r1 hdig1
        (by intro h0; rw [h0] at hl2; simp at hl2))
  have e3 : r2 = pad2 hh ++ r3 := hs3 (by omega)
  have e4 : r3 = pad2 mi ++ r4 := hs4 (by omega)
  have e5 : r4 = pad2 ss := by
    have h5 := hs5 (by omega)
    rwa [List.append_nil] at h5
  refine ⟨hm1, hm2, hd1, hd2, hh1, hmi1, hss1, ?_⟩
  rw [e1, e2, e3, e4, e5]

theorem firstSome_head_some {α β : Type} (f : α → Option β) (l : List α)
    (a : α) (b : β) (hl : l.head? = some a) (hf : f a = some b) :
    firstSome f l = some b := by
  cases l with
  | nil => simp at hl
  | cons x xs =>
    simp only [List.head?_cons, Option.some.injEq] at hl
    subst hl
    simp [firstSome, hf]

theorem mCands_pad2 (m : Nat) (tail : List Char) (h1 : 1 ≤ m) (h2 : m ≤ 12) :
    (mCands (pad2 m ++ tail)).head? = some (m, tail) := by
  interval_cases m <;> simp +decide [pad2, mCands, digitChar]

theorem dCands_pad2 (d : Nat) (tail : List Char) (h1 : 1 ≤ d) (h2 : d ≤ 31) :
    (dCands (pad2 d ++ tail)).head? = some (d, tail) := by
  interval_cases d <;> simp +decide [pad2, dCands, digitChar]

theorem hCands_pad2 (hv : Nat) (tail : List Char) (h2 : hv ≤ 23) :
    (hCands (pad2 hv ++ tail)).head? = some (hv, tail) := by
  interval_cases hv <;> simp +decide [pad2, hCands, digitChar]

theorem miCands_pad2 (mi : Nat) (tail : List Char) (h2 : mi ≤ 59) :
    (miCands (pad2 mi ++ tail)).head? = some (mi, tail) := by
  interval_cases mi <;> simp +decide [pad2, miCands, digitChar]

theorem sCands_pad2 (ss : Nat) (tail : List Char) (h2 : ss ≤ 59) :
    (sCands (pad2 ss ++ tail)).head? = some (ss, tail) := by
  interval_cases ss <;> simp +decide [pad2, sCands, digitChar]

theorem matchMD_pad (m d : Nat) (tail : List Char) (h1 : 1 ≤ m) (h2 : m ≤ 12)
    (h3 : 1 ≤ d) (h4 : d ≤ 31) :
    matchMD (pad2 m ++ (pad2 d ++ tail)) = some (m, d, tail) := by
  unfold matchMD
  refine firstSome_head_some _ _ (m, pad2 d ++ tail) _ (mCands_pad2 m _ h1 h2) ?_
  exact firstSome_head_some _ _ (d, tail) _ (dCands_pad2 d tail h3 h4) rfl

theorem matchMDHMS_pad (m d hh mi ss : Nat) (tail : List Char) (h1 : 1 ≤ m)
    (h2 : m ≤ 12) (h3 : 1 ≤ d) (h4 : d ≤ 31) (h5 : hh ≤ 23) (h6 : mi ≤ 59)
    (h7 : ss ≤ 59) :
    matchMDHMS
        (pad2 m ++ (pad2 d ++ (pad2 hh ++ (pad2 mi ++ (pad2 ss ++ tail))))) =
      some (m, d, hh, mi, ss, tail) := by
  unfold matchMDHMS
  refine firstSome_head_some _ _ (m, _) _ (mCands_pad2 m _ h1 h2) ?_
  refine firstSome_head_some _ _ (d, _) _ (dCands_pad2 d _ h3 h4) ?_
  refine firstSome_head_some _ _ (hh, _) _ (hCands_pad2 hh _ h5) ?_
  refine firstSome_head_some _ _ (mi, _) _ (miCands_pad2 mi _ h6) ?_
  exact firstSome_head_some _ _ (ss, tail) _ (sCands_pad2 ss tail h7) rfl

theorem strptimeDA_bounds (cs : List Char) (t : YMD)
    (h : strptimeDA cs = some t) :
    validYMD t = true ∧ 1 ≤ t.y ∧ t.y ≤ 9999 := by
  rcases cs with _ | ⟨c1, cs⟩
  · exact Option.noConfusion h
  rcases cs with _ | ⟨c2, cs⟩
  · exact Option.noConfusion h
  rcases cs with _ | ⟨c3, cs⟩
  · exact Option.noConfusion h
  rcases cs with _ | ⟨c4, rest⟩
  · exact Option.noConfusion h
  simp only [strptimeDA, Option.bind_eq_bind] at h
  rw [Option.bind_eq_some] at h
  obtain ⟨y, hy, h⟩ := h
  rw [Option.bind_eq_some] at h
  obtain ⟨md, hmd, h⟩ := h
  rw [Option.ite_none_right_eq_some] at h
  obtain ⟨hleft, h⟩ := h
  rw [Option.ite_none_right_eq_some] at h
  obtain ⟨⟨hy1, hval⟩, h⟩ := h
  injection h with h
  subst h
  obtain ⟨hy4, _⟩ := d4_some c1 c2 c3 c4 y hy
  refine ⟨hval, ?_, ?_⟩
  · show (1 : Int) ≤ (y : Int)
    omega
  · show (y : Int) ≤ 9999
    omega

theorem strptimeDA_canonical (cs : List Char) (t : YMD)
    (h : strptimeDA cs = some t) (hlen : cs.length = 8)
    (hdig : allDigits cs = true) (hhead : cs.head? ≠ some (Char.ofNat 48)) :
    1000 ≤ t.y ∧ formatYMD t = cs := by
  rcases cs with _ | ⟨c1, cs⟩
  · exact Option.noConfusion h
  rcases cs with _ | ⟨c2, cs⟩
  · exact Option.noConfusion h
  rcases cs with _ | ⟨c3, cs⟩
  · exact Option.noConfusion h
  rcases cs with _ | ⟨c4, rest⟩
  · exact Option.noConfusion h
  simp only [strptimeDA, Option.bind_eq_bind] at h
  rw [Option.bind_eq_some] at h
  obtain ⟨y, hy, h⟩ := h
  rw [Option.bind_eq_some] at h
  obtain ⟨md, hmd, h⟩ := h
  rw [Option.ite_none_right_eq_some] at h
  obtain ⟨hleft, h⟩ := h
  rw [Option.ite_none_right_eq_some] at h
  obtain ⟨⟨hy1, hval⟩, h⟩ := h
  injection h with h
  subst h
  obtain ⟨hy4, hpad⟩ := d4_some c1 c2 c3 c4 y hy
  have hrest_len : rest.length = 4 := by
    simp only [List.length_cons] at hlen
    omega
  have hrest_dig : allDigits rest = true := by
    simp only [allDigits, List.all_cons, Bool.and_eq_true] at hdig
    exact hdig.2.2.2.2
  obtain ⟨m, d, lv⟩ := md
  have hlv : lv = [] := hleft
  subst hlv
  obtain ⟨hm1, hm2, hd1, hd2, hrest⟩ := matchMD_four rest m d hmd hrest_len
    hrest_dig
  have hc1 : digitChar (y / 1000 % 10) = c1 := by
    have hp := hpad
    simp only [pad4, List.cons.injEq, and_true] at hp
    exact hp.1
  have hy1000 : 1000 ≤ y := by
    by_contra hlt
    push_neg at hlt
    have h0 : y / 1000 % 10 = 0 := by omega
    rw [h0] at hc1
    apply hhead
    simp only [List.head?_cons]
    rw [← hc1]
    decide
  refine ⟨by show (1000 : Int) ≤ (y : Int); omega, ?_⟩
  show yearChars ((y : Int)).toNat ++ pad2 m ++ pad2 d =
    c1 :: c2 :: c3 :: c4 :: rest
  rw [show ((y : Int)).toNat = y from by omega, yearChars_pad4 y hy1000, hpad,
    hrest]
  simp [List.append_assoc]

theorem strptimeDA_format (t : YMD) (hv : validYMD t = true) (h1 : 1000 ≤ t.y)
    (h2 : t.y ≤ 9999) : strptimeDA (formatYMD t) = some t := by
  obtain ⟨y, m, d⟩ := t
  obtain ⟨hm1, hm2, hd1, hd2⟩ := (validYMD_mk y m d).mp hv
  have hdim := daysInMonth_le y m
  have h1' : (1000 : Int) ≤ y := h1
  have h2' : y ≤ (9999 : Int) := h2
  have hyn1 : 1000 ≤ y.toNat := by omega
  have hyn2 : y.toNat < 10000 := by omega
  have hfmt : formatYMD ⟨y, m, d⟩ = pad4 y.toNat ++ (pad2 m ++ (pad2 d ++ [])) := by
    show yearChars y.toNat ++ pad2 m ++ pad2 d = _
    rw [yearChars_pad4 y.toNat hyn1, List.append_nil, List.append_assoc]
  rw [hfmt]
  simp only [pad4, List.cons_append, List.nil_append]
  simp only [strptimeDA, Option.bind_eq_bind]
  rw [d4_pad4 y.toNat hyn2]
  simp only [Option.some_bind]
  rw [matchMD_pad m d [] hm1 hm2 hd1 (by omega)]
  simp only [Option.some_bind]
  rw [if_pos trivial]
  rw [show ((y.toNat : Nat) : Int) = y from by omega]
  rw [if_pos ⟨by omega, hv⟩]

theorem strptimeDT_bounds (cs : List Char) (r : YMD × Nat × Nat × Nat)
    (h : strptimeDT cs = some r) :
    validYMD r.1 = true ∧ 1 ≤ r.1.y ∧ r.1.y ≤ 9999 ∧ r.2.1 ≤ 23 ∧
      r.2.2.1 ≤ 59 ∧ r.2.2.2 ≤ 59 := by
  rcases cs with _ | ⟨c1, cs⟩
  · exact Option.noConfusion h
  rcases cs with _ | ⟨c2, cs⟩
  · exact Option.noConfusion h
  rcases cs with _ | ⟨c3, cs⟩
  · exact Option.noConfusion h
  rcases cs with _ | ⟨c4, rest⟩
  · exact Option.noConfusion h
  simp only [strptimeDT, Option.bind_eq_bind] at h
  rw [Option.bind_eq_some] at h
  obtain ⟨y, hy, h⟩ := h
  rw [Option.bind_eq_some] at h
  obtain ⟨q, hq, h⟩ := h
  rw [Option.ite_none_right_eq_some] at h
  obtain ⟨hleft, h⟩ := h
  rw [Option.ite_none_right_eq_some] at h
  obtain ⟨⟨hy1, hval, hh23, hmi59, hss59⟩, h⟩ := h
  injection h with h
  subst h
  obtain ⟨hy4, _⟩ := d4_some c1 c2 c3 c4 y hy
  exact ⟨hval, by show (1 : Int) ≤ (y : Int); omega,
    by show (y : Int) ≤ 9999; omega, hh23, hmi59, hss59⟩

theorem strptimeDT_min (cs : List Char) (r : YMD × Nat × Nat × Nat)
    (h : strptimeDT cs = some r) : 9 ≤ cs.length := by
  rcases cs with _ | ⟨c1, cs⟩
  · exact Option.noConfusion h
  rcases cs with _ | ⟨c2, cs⟩
  · exact Option.noConfusion h
  rcases cs with _ | ⟨c3, cs⟩
  · exact Option.noConfusion h
  rcases cs with _ | ⟨c4, rest⟩
  · exact Option.noConfusion h
  simp only [strptimeDT, Option.bind_eq_bind] at h
  rw [Option.bind_eq_some] at h
  obtain ⟨y, hy, h⟩ := h
  rw [Option.bind_eq_some] at h
  obtain ⟨q, hq, h⟩ := h
  rw [Option.ite_none_right_eq_some] at h
  obtain ⟨hleft, h⟩ := h
  obtain ⟨r1, r2, r3, r4, hm, hd, hhh, hmi, hss⟩ := matchMDHMS_eq_some rest q hq
  obtain ⟨_, _, hl1, _, _⟩ := mCands_mem rest q.1 r1 hm
  obtain ⟨_, _, hl2, _, _⟩ := dCands_mem r1 q.2.1 r2 hd
  obtain ⟨_, hl3, _, _⟩ := hCands_mem r2 q.2.2.1 r3 hhh
  obtain ⟨_, hl4, _, _⟩ := miCands_mem r3 q.2.2.2.1 r4 hmi
  obtain ⟨_, hl5, _, _⟩ := sCands_mem r4 q.2.2.2.2.1 q.2.2.2.2.2 hss
  rw [hleft] at hl5
  simp only [List.length_nil] at hl5
  simp only [List.length_cons]
  omega

theorem strptimeDT_canonical (cs : List Char) (r : YMD × Nat × Nat × Nat)
    (h : strptimeDT cs = some r) (hlen : cs.length = 14)
    (hdig : allDigits cs = true) (hhead : cs.head? ≠ some (Char.ofNat 48)) :
    1000 ≤ r.1.y ∧
      formatYMD r.1 ++ pad2 r.2.1 ++ pad2 r.2.2.1 ++ pad2 r.2.2.2 = cs := by
  rcases cs with _ | ⟨c1, cs⟩
  · exact Option.noConfusion h
  rcases cs with _ | ⟨c2, cs⟩
  · exact Option.noConfusion h
  rcases cs with _ | ⟨c3, cs⟩
  · exact Option.noConfusion h
  rcases cs with _ | ⟨c4, rest⟩
  · exact Option.noConfusion h
  simp only [strptimeDT, Option.bind_eq_bind] at h
  rw [Option.bind_eq_some] at h
  obtain ⟨y, hy, h⟩ := h
  rw [Option.bind_eq_some] at h
  obtain ⟨q, hq, h⟩ := h
  rw [Option.ite_none_right_eq_some] at h
  obtain ⟨hleft, h⟩ := h
  rw [Option.ite_none_right_eq_some] at h
  obtain ⟨⟨hy1, hval, hh23, hmi59, hss59⟩, h⟩ := h
  injection h with h
  subst h
  obtain ⟨hy4, hpad⟩ := d4_some c1 c2 c3 c4 y hy
  have hrest_len : rest.length = 10 := by
    simp only [List.length_cons] at hlen
    omega
  have hrest_dig : allDigits rest = true := by
    simp only [allDigits, List.all_cons, Bool.and_eq_true] at hdig
    exact hdig.2.2.2.2
  obtain ⟨m, d, hh, mi, ss, lv⟩ := q
  have hlv : lv = [] := hleft
  subst hlv
  obtain ⟨hm1, hm2, hd1, hd2, _, _, _, hrest⟩ :=
    matchMDHMS_ten rest m d hh mi ss hq hrest_len hrest_dig
  have hc1 : digitChar (y / 1000 % 10) = c1 := by
    have hp := hpad
    simp only [pad4, List.cons.injEq, and_true] at hp
    exact hp.1
  have hy1000 : 1000 ≤ y := by
    by_contra hlt
    push_neg at hlt
    have h0 : y / 1000 % 10 = 0 := by omega
    rw [h0] at hc1
    apply hhead
    simp only [List.head?_cons]
    rw [← hc1]
    decide
  refine ⟨by show (1000 : Int) ≤ (y : Int); omega, ?_⟩
  show yearChars ((y : Int)).toNat ++ pad2 m ++ pad2 d ++ pad2 hh ++ pad2 mi ++
    pad2 ss = c1 :: c2 :: c3 :: c4 :: rest
  rw [show ((y : Int)).toNat = y from by omega, yearChars_pad4 y hy1000, hpad,
    hrest]
  simp [List.append_assoc]

theorem strptimeDT_format (t : YMD) (hh mi ss : Nat) (hv : validYMD t = true)
    (h1 : 1000 ≤ t.y) (h2 : t.y ≤ 9999) (h3 : hh ≤ 23) (h4 : mi ≤ 59)
    (h5 : ss ≤ 59) :
    strptimeDT (formatYMD t ++ pad2 hh ++ pad2 mi ++ pad2 ss) =
      some (t, hh, mi, ss) := by
  obtain ⟨y, m, d⟩ := t
  obtain ⟨hm1, hm2, hd1, hd2⟩ := (validYMD_mk y m d).mp hv
  have hdim := daysInMonth_le y m
  have h1' : (1000 : Int) ≤ y := h1
  have h2' : y ≤ (9999 : Int) := h2
  have hyn1 : 1000 ≤ y.toNat := by omega
  have hyn2 : y.toNat < 10000 := by omega
  have hfmt : formatYMD ⟨y, m, d⟩ ++ pad2 hh ++ pad2 mi ++ pad2 ss =
      pad4 y.toNat ++
        (pad2 m ++ (pad2 d ++ (pad2 hh ++ (pad2 mi ++ (pad2 ss ++ []))))) := by
    show yearChars y.toNat ++ pad2 m ++ pad2 d ++ pad2 hh ++ pad2 mi ++
      pad2 ss = _
    rw [yearChars_pad4 y.toNat hyn1, List.append_nil]
    simp [List.append_assoc]
  rw [hfmt]
  simp only [pad4, List.cons_append, List.nil_append]
  simp only [strptimeDT, Option.bind_eq_bind]
  rw [d4_pad4 y.toNat hyn2]
  simp only [Option.some_bind]
  rw [matchMDHMS_pad m d hh mi ss [] hm1 hm2 hd1 (by omega) h3 h4 h5]
  simp only [Option.some_bind]
  rw [if_pos trivial]
  rw [show ((y.toNat : Nat) : Int) = y from by omega]
  rw [if_pos ⟨by omega, hv, h3, h4, h5⟩]

theorem shift_da_eq_some (s : String) (days : Int) (e : String)
    (h : shift_da s days = some e) :
    ∃ t, strptimeDA s.data = some t ∧ 1 ≤ (addDays t days).y ∧
      (addDays t days).y ≤ 9999 ∧ e.data = formatYMD (addDays t days) := by
  unfold shift_da at h
  cases ht : strptimeDA s.data with
  | none => rw [ht] at h; exact Option.noConfusion h
  | some t =>
    rw [ht] at h
    simp only [Option.bind_eq_bind, Option.some_bind, Option.pure_def,
      Option.ite_none_right_eq_some, Option.some.injEq] at h
    obtain ⟨⟨hl, hr⟩, he⟩ := h
    exact ⟨t, rfl, hl, hr, by rw [← he]⟩

/-- Round trip for the date shifter on canonical values: when the forward
shift succeeds on an 8-digit string with a nonzero leading digit (so the
year is at least 1000) and the shifted output still has 8 characters,
shifting the output back by the negated offset returns the original
string.  The extra hypotheses are essential: the program renders years
below 1000 without padding, so "00500115" (year 50) becomes "500115",
which reparses as the year 5001. -/
theorem shift_da_roundtrip (s : String) (days : Int) (e : String)
    (h : shift_da s days = some e) (hlen : s.data.length = 8)
    (hdig : allDigits s.data = true)
    (hhead : s.data.head? ≠ some (Char.ofNat 48))
    (helen : e.data.length = 8) : shift_da e (-days) = some s := by
  obtain ⟨t, hp, h1, h2, hdata⟩ := shift_da_eq_some s days e h
  obtain ⟨hval, hb1, hb2⟩ := strptimeDA_bounds s.data t hp
  obtain ⟨hy1000, hfmt⟩ := strptimeDA_canonical s.data t hp hlen hdig hhead
  have hval2 : validYMD (addDays t days) = true := addDays_valid t days hval
  have hylen : (yearChars (addDays t days).y.toNat).length = 4 := by
    have he2 : e.data.length =
        (yearChars (addDays t days).y.toNat).length + 4 := by
      rw [hdata, formatYMD_def]
      simp only [List.length_append, pad2, List.length_cons, List.length_nil]
    omega
  have hy1000' : 1000 ≤ (addDays t days).y := by
    have hn := yearChars_four _ hylen
    omega
  unfold shift_da
  rw [hdata, strptimeDA_format (addDays t days) hval2 hy1000' h2]
  simp only [Option.bind_eq_bind, Option.some_bind]
  rw [addDays_neg_cancel t days hval]
  rw [if_pos ⟨hb1, hb2⟩, hfmt]
  rfl

theorem shift_dt_eq_some (s : String) (days : Int) (e : String)
    (h : shift_dt s days = some e) :
    ∃ r, strptimeDT (s.data.take 14) = some r ∧ 1 ≤ (addDays r.1 days).y ∧
      (addDays r.1 days).y ≤ 9999 ∧
      e.data = formatYMD (addDays r.1 days) ++ pad2 r.2.1 ++ pad2 r.2.2.1 ++
        pad2 r.2.2.2 ++ s.data.drop 14 := by
  unfold shift_dt at h
  cases ht : strptimeDT (s.data.take 14) with
  | none => rw [ht] at h; exact Option.noConfusion h
  | some r =>
    rw [ht] at h
    simp only [Option.bind_eq_bind, Option.some_bind, Option.pure_def,
      Option.ite_none_right_eq_some, Option.some.injEq] at h
    obtain ⟨⟨hl, hr⟩, he⟩ := h
    exact ⟨r, rfl, hl, hr, by rw [← he]⟩

/-- Round trip for the date-time shifter on canonical values: when the
forward shift succeeds, the first 14 characters are digits with a nonzero
leading digit, and the output is as long as the input, then shifting back
by the negated offset returns the original string, and the suffix beyond
the 14th character is reappended verbatim.  As for shift_da, a year below
1000 renders unpadded and breaks the round trip, so the canonicity
hypotheses are essential. -/
theorem shift_dt_roundtrip (s : String) (days : Int) (e : String)
    (h : shift_dt s days = some e) (hlen : 14 ≤ s.data.length)
    (hdig : allDigits (s.data.take 14) = true)
    (hhead : s.data.head? ≠ some (Char.ofNat 48))
    (helen : e.data.length = s.data.length) :
    shift_dt e (-days) = some s ∧ e.data.drop 14 = s.data.drop 14 := by
  obtain ⟨r, hp, h1, h2, hdata⟩ := shift_dt_eq_some s days e h
  obtain ⟨hval, hb1, hb2, hh23, hmi59, hss59⟩ := strptimeDT_bounds _ r hp
  have htlen : (s.data.take 14).length = 14 := by
    rw [List.length_take]
    omega
  have hthead : (s.data.take 14).head? ≠ some (Char.ofNat 48) := by
    cases hs : s.data with
    | nil => rw [hs] at hlen; simp at hlen
    | cons c cs =>
      rw [hs] at hhead
      simpa using hhead
  obtain ⟨hy1000, hfmt⟩ := strptimeDT_canonical _ r hp htlen hdig hthead
  have hval2 : validYMD (addDays r.1 days) = true := addDays_valid r.1 days hval
  have hylen : (yearChars (addDays r.1 days).y.toNat).length = 4 := by
    have he2 : e.data.length = (yearChars (addDays r.1 days).y.toNat).length +
        10 + (s.data.length - 14) := by
      rw [hdata, formatYMD_def]
      simp only [List.length_append, pad2, List.length_cons, List.length_nil,
        List.length_drop]
    omega
  have hy1000' : 1000 ≤ (addDays r.1 days).y := by
    have hn := yearChars_four _ hylen
    omega
  have hFlen : (formatYMD (addDays r.1 days) ++ pad2 r.2.1 ++ pad2 r.2.2.1 ++
      pad2 r.2.2.2).length = 14 := by
    rw [formatYMD_def]
    simp only [List.length_append, pad2, List.length_cons, List.length_nil]
    omega
  have hdataF : e.data = (formatYMD (addDays r.1 days) ++ pad2 r.2.1 ++
      pad2 r.2.2.1 ++ pad2 r.2.2.2) ++ s.data.drop 14 := by
    rw [hdata]
  have htake : e.data.take 14 = formatYMD (addDays r.1 days) ++ pad2 r.2.1 ++
      pad2 r.2.2.1 ++ pad2 r.2.2.2 := by
    rw [hdataF, ← hFlen, List.take_left]
  have hdrop : e.data.drop 14 = s.data.drop 14 := by
    rw [hdataF, ← hFlen, List.drop_left]
  refine ⟨?_, hdrop⟩
  unfold shift_dt
  rw [htake, strptimeDT_format (addDays r.1 days) r.2.1 r.2.2.1 r.2.2.2 hval2
    hy1000' h2 hh23 hmi59 hss59]
  simp only [Option.bind_eq_bind, Option.some_bind]
  show (if 1 ≤ (addDays (addDays r.1 days) (-days)).y ∧
      (addDays (addDays r.1 days) (-days)).y ≤ 9999 then
    pure (String.mk (formatYMD (addDays (addDays r.1 days) (-days)) ++
      pad2 r.2.1 ++ pad2 r.2.2.1 ++ pad2 r.2.2.2 ++ e.data.drop 14))
  else none) = some s
  rw [addDays_neg_cancel r.1 days hval]
  rw [if_pos ⟨hb1, hb2⟩]
  rw [hdrop, hfmt, List.take_append_drop]
  rfl

/-- A DT value shorter than 9 characters always fails: the pattern needs
four year digits and at least one digit for each of the five remaining
fields.  (Values of 9 to 13 digits can succeed, because the flexible
strptime field widths accept one-digit months, days, hours, minutes and
seconds.) -/
theorem shift_dt_short (s : String) (days : Int) (h : s.data.length < 9) :
    shift_dt s days = none := by
  cases ht : strptimeDT (s.data.take 14) with
  | none => simp [shift_dt, ht]
  | some r =>
    have h9 := strptimeDT_min _ r ht
    rw [List.length_take] at h9
    omega

/-- Python string strip: remove whitespace from both ends.  Used on the
identifier fields and on the lookup-table cells. -/
def pyStrip (s : String) : String :=
  String.mk
    (((s.data.dropWhile Char.isWhitespace).reverse.dropWhile
      Char.isWhitespace).reverse)

/-- Lookup in an association list: first entry with the given key.  Models
Python dict lookup for the maps built by alInsert (which keeps keys
unique), and pydicom tag lookup in a dataset. -/
def alGet {α β : Type} [DecidableEq α] : List (α × β) → α → Option β
  | [], _ => none
  | (k, v) :: rest, a => if k = a then some v else alGet rest a

/-- Update-or-append in an association list: models Python dict assignment
(overwrite, keep insertion position, append new keys) and in-place mutation
of a dataset element. -/
def alInsert {α β : Type} [DecidableEq α] : List (α × β) → α → β → List (α × β)
  | [], a, b => [(a, b)]
  | (k, v) :: rest, a, b =>
    if k = a then (a, b) :: rest else (k, v) :: alInsert rest a b

/-- One data element of a DICOM dataset: its value representation code and
its (string) value.  The empty string models an absent/empty value, which
Python treats as falsy. -/
structure DElem where
  vr : String
  value : String
deriving DecidableEq, Repr

/-- A DICOM dataset as exposed by the excluded parser: a finite map from
(group, element) tag coordinates to elements. -/
abbrev Dataset := List ((Nat × Nat) × DElem)

/-- Value of the personal map for one patient. -/
structure PersonalEntry where
  person_id : String
  days_shifted : Int
deriving DecidableEq, Repr

abbrev ImageMap := List ((String × String) × String)

abbrev PersonalMap := List (String × PersonalEntry)

/-- Tag coordinate of PatientID. -/
def pidTag : Nat × Nat := (0x0010, 0x0020)

/-- Tag coordinate of AccessionNumber. -/
def accTag : Nat × Nat := (0x0008, 0x0050)

/-- The fixed list of 19 (group, element) coordinates whose values are date
shifted (src/pydicom/pydicom_deid.py lines 72-78, after int(_, 16)
conversion). -/
def date_shift_tags : List (Nat × Nat) :=
  [(0x0008, 0x0012), (0x0008, 0x0020), (0x0008, 0x0021), (0x0008, 0x0022),
   (0x0008, 0x0023), (0x0008, 0x002a), (0x0010, 0x0030), (0x0018, 0x1012),
   (0x0018, 0x1078), (0x0018, 0x1079), (0x0018, 0x1200), (0x0018, 0x700c),
   (0x0032, 0x1000), (0x0032, 0x1010), (0x0032, 0x1040), (0x0032, 0x1050),
   (0x0038, 0x0020), (0x0038, 0x0030), (0x3006, 0x0008)]

/-- getattr(ds, kw, "") for a string attribute: the element value when the
tag is present, the empty string otherwise. -/
def getAttrStr (ds : Dataset) (t : Nat × Nat) : String :=
  match alGet ds t with
  | some el => el.value
  | none => ""

/-- Attribute assignment ds.kw = v: overwrite the value of an existing
element (keeping its VR), or create the element with the data-dictionary
VR when absent. -/
def setAttrValue (ds : Dataset) (t : Nat × Nat) (defaultVR : String)
    (v : String) : Dataset :=
  match alGet ds t with
  | some el => alInsert ds t ⟨el.vr, v⟩
  | none => alInsert ds t ⟨defaultVR, v⟩

/-- How the date-shift loop of process_dicom_file can abort: an element
whose VR is neither DA nor DT (the explicit else branch, which copies the
original file and returns False), or a shift_da / shift_dt failure (an
uncaught ValueError / OverflowError propagating out of the function). -/
inductive ShiftErr where
  | unhandledVR
  | raisedShift
deriving DecidableEq, Repr

/-- The for-loop over date_shift_tags in process_dicom_file (lines 80-99):
skip absent or empty tags, shift DA values with shift_da and DT values
with shift_dt (mutating the dataset in place), stop with unhandledVR on
any other VR, and stop with raisedShift when a shift raises. -/
def shiftTags (days : Int) : Dataset → List (Nat × Nat) → Except ShiftErr Dataset
  | ds, [] => .ok ds
  | ds, t :: rest =>
    match alGet ds t with
    | none => shiftTags days ds rest
    | some el =>
      if el.value = "" then shiftTags days ds rest
      else if el.vr = "DA" then
        match shift_da el.value days with
        | some v => shiftTags days (alInsert ds t ⟨el.vr, v⟩) rest
        | none => .error .raisedShift
      else if el.vr = "DT" then
        match shift_dt el.value days with
        | some v => shiftTags days (alInsert ds t ⟨el.vr, v⟩) rest
        | none => .error .raisedShift
      else .error .unhandledVR

/-- Reason strings of the unprocessed branches: unmatchedIdentifiers is the
"Unmatched PatientID or AccessionNumber" path, unhandledValueType the
"Unhandled VR" path (the spec's Unprocessed("unhandled value type")). -/
inductive UnprocReason where
  | unmatchedIdentifiers
  | unhandledValueType
deriving DecidableEq, Repr

/-- Outcome of process_dicom_file on one file.  processed final: the fully
mutated dataset is serialized (save_as) to the processed tree and True is
returned.  unprocessed r: the original file is copied byte-for-byte
(shutil.copy2) to the unprocessed tree and False is returned.  raised: an
exception escapes the function (it has no handler, and neither does the
main loop), so nothing at all is written for this file. -/
inductive Disposition where
  | processed (final : Dataset)
  | unprocessed (reason : UnprocReason)
  | raised
deriving DecidableEq, Repr

/-- original_pid (line 52): getattr(ds, "PatientID", "").strip(). -/
def trimmedPid (ds : Dataset) : String :=
  pyStrip (getAttrStr ds pidTag)

/-- original_acc (line 53): getattr(ds, "AccessionNumber", "").strip(). -/
def trimmedAcc (ds : Dataset) : String :=
  pyStrip (getAttrStr ds accTag)

/-- The identifier substitution of lines 68-69: overwrite PatientID with the
mapped person_id and AccessionNumber with the mapped trial accession. -/
def deidDs (ds : Dataset) (pe : PersonalEntry) (trial : String) : Dataset :=
  setAttrValue (setAttrValue ds pidTag "LO" pe.person_id) accTag "SH" trial

/-- Model of process_dicom_file (src/pydicom/pydicom_deid.py lines 48-105):
strip PatientID and AccessionNumber, require both map hits, substitute the
identifiers, then run the date-shift loop. -/
def process_dicom_file (ds : Dataset) (im : ImageMap) (pm : PersonalMap) :
    Disposition :=
  match alGet pm (trimmedPid ds),
      alGet im (trimmedPid ds, trimmedAcc ds) with
  | some pe, some trial =>
    match shiftTags pe.days_shifted (deidDs ds pe trial) date_shift_tags with
    | .ok final => .processed final
    | .error .unhandledVR => .unprocessed .unhandledValueType
    | .error .raisedShift => .raised
  | _, _ => .unprocessed .unmatchedIdentifiers

/-- What lands on disk for one input file with relative path relPath:
nothing (exception), the original bytes at unprocessed_root/relPath, or
the serialized de-identified dataset at output_root/relPath. -/
inductive PersistedArtifact where
  | nothingWritten
  | originalCopy (relPath : String)
  | deidentified (relPath : String) (final : Dataset)
deriving DecidableEq, Repr

/-- Persistence effect of a disposition (os.makedirs + shutil.copy2 for the
unprocessed branches, os.makedirs + ds.save_as for the processed branch,
nothing when the exception propagates). -/
def persistOf (relPath : String) : Disposition → PersistedArtifact
  | .processed final => .deidentified relPath final
  | .unprocessed _ => .originalCopy relPath
  | .raised => .nothingWritten

/-- The per-file loop of the main block (lines 147-160): process files in
order; an exception from process_dicom_file propagates (there is no
try/except), aborting the whole run.  Returns the dispositions of the
files that completed and whether the run aborted. -/
def runAll (im : ImageMap) (pm : PersonalMap) :
    List (String × Dataset) → List (String × Disposition) × Bool
  | [] => ([], false)
  | (rel, ds) :: rest =>
    match process_dicom_file ds im pm with
    | .raised => ([], true)
    | d =>
      ((rel, d) :: (runAll im pm rest).1, (runAll im pm rest).2)

/-- One row of Image_map.csv as produced by csv.DictReader. -/
structure ImageRow where
  PatientID : String
  AccessionNumber : String
  image_occurence_id : String
deriving DecidableEq, Repr

/-- One row of Personal_map.csv as produced by csv.DictReader. -/
structure PersonalRow where
  PatientID : String
  person_id : String
  Days_Shifted : String
deriving DecidableEq, Repr

/-- Helper of parseIntPy: consume digits, allowing a single underscore
between two digits (Python integer literal grouping). -/
def pyDigitsAux (acc : Nat) : List Char → Option Nat
  | [] => some acc
  | c :: rest =>
    if 48 ≤ c.toNat ∧ c.toNat ≤ 57 then
      pyDigitsAux (acc * 10 + (c.toNat - 48)) rest
    else if c = '_' then
      match rest with
      | [] => none
      | d :: rest2 =>
        if 48 ≤ d.toNat ∧ d.toNat ≤ 57 then
          pyDigitsAux (acc * 10 + (d.toNat - 48)) rest2
        else none
    else none

/-- Digit run starting the number: must begin with a digit. -/
def pyIntDigits (l : List Char) : Option Nat :=
  match l with
  | [] => none
  | c :: _ =>
    if 48 ≤ c.toNat ∧ c.toNat ≤ 57 then pyDigitsAux 0 l else none

/-- Model of Python int(str): strip whitespace, optional sign, decimal
digits with optional single grouping underscores; anything else raises
ValueError (none). -/
def parseIntPy (s : String) : Option Int :=
  match (pyStrip s).data with
  | [] => none
  | '+' :: rest => (pyIntDigits rest).map (fun n => (n : Int))
  | '-' :: rest => (pyIntDigits rest).map (fun n => -(n : Int))
  | l => (pyIntDigits l).map (fun n => (n : Int))

/-- The personal-map half of load_lookup_tables (lines 23-31): each row's
cells are stripped and Days_Shifted is parsed with int(); a parse failure
raises ValueError, which nothing catches, so the whole load fails. -/
def loadPersonal : List PersonalRow → PersonalMap → Option PersonalMap
  | [], m => some m
  | r :: rest, m =>
    match parseIntPy r.Days_Shifted with
    | none => none
    | some n =>
      loadPersonal rest
        (alInsert m (pyStrip r.PatientID) ⟨pyStrip r.person_id, n⟩)

/-- The image-map half of load_lookup_tables (lines 14-21): never fails. -/
def loadImage : List ImageRow → ImageMap → ImageMap
  | [], m => m
  | r :: rest, m =>
    loadImage rest
      (alInsert m (pyStrip r.PatientID, pyStrip r.AccessionNumber)
        (pyStrip r.image_occurence_id))

/-- Model of load_lookup_tables: build both maps; a Days_Shifted parse
failure aborts the load (and hence the run, since the loader is called
before any file is visited). -/
def load_lookup_tables (imageRows : List ImageRow)
    (personalRows : List PersonalRow) : Option (ImageMap × PersonalMap) :=
  match loadPersonal personalRows [] with
  | none => none
  | some pm => some (loadImage imageRows [], pm)

/-- The whole run: load the lookup tables, then process every discovered
file.  none models a run that aborted during loading, before any record
was processed. -/
def mainRun (imageRows : List ImageRow) (personalRows : List PersonalRow)
    (files : List (String × Dataset)) :
    Option (List (String × Disposition) × Bool) :=
  match load_lookup_tables imageRows personalRows with
  | none => none
  | some (im, pm) => some (runAll im pm files)

/-- Image map of the spec's concrete scenario. -/
def scenarioIm : ImageMap := [(("P1", "A1"), "TRIAL001")]

/-- Personal map of the spec's concrete scenario. -/
def scenarioPm : PersonalMap := [("P1", ⟨"SUBJ01", 10⟩)]

/-- Input record of the spec's concrete scenario: PatientID P1,
AccessionNumber A1, one date field 20230101 (StudyDate, VR DA). -/
def scenarioDs : Dataset :=
  [((0x0010, 0x0020), ⟨"LO", "P1"⟩), ((0x0008, 0x0050), ⟨"SH", "A1"⟩),
   ((0x0008, 0x0020), ⟨"DA", "20230101"⟩)]

/-- Expected output record of the scenario. -/
def scenarioOut : Dataset :=
  [((0x0010, 0x0020), ⟨"LO", "SUBJ01"⟩),
   ((0x0008, 0x0050), ⟨"SH", "TRIAL001"⟩),
   ((0x0008, 0x0020), ⟨"DA", "20230111"⟩)]

example :
    process_dicom_file scenarioDs scenarioIm scenarioPm =
      .processed scenarioOut := by decide

theorem alGet_alInsert_self {α β : Type} [DecidableEq α] (l : List (α × β))
    (a : α) (b : β) : alGet (alInsert l a b) a = some b := by
  induction l with
  | nil => simp [alInsert, alGet]
  | cons p rest ih =>
    obtain ⟨k, v⟩ := p
    by_cases hk : k = a
    · subst hk
      simp [alInsert, alGet]
    · simp [alInsert, alGet, hk, ih]

theorem alGet_alInsert_ne {α β : Type} [DecidableEq α] (l : List (α × β))
    (a : α) (b : β) (a' : α) (h : a ≠ a') :
    alGet (alInsert l a b) a' = alGet l a' := by
  induction l with
  | nil => simp [alInsert, alGet, h]
  | cons p rest ih =>
    obtain ⟨k, v⟩ := p
    by_cases hk : k = a
    · subst hk
      simp [alInsert, alGet, h]
    · by_cases hk2 : k = a'
      · subst hk2
        simp [alInsert, alGet, hk]
      · simp [alInsert, alGet, hk, hk2, ih]

/-- The last element of shiftedElem: the value the date-shift loop writes
back for one element, none when the loop raises or aborts on it. -/
def shiftedElem (days : Int) (el : DElem) : Option DElem :=
  if el.value = "" then some el
  else if el.vr = "DA" then (shift_da el.value days).map (fun v => ⟨el.vr, v⟩)
  else if el.vr = "DT" then (shift_dt el.value days).map (fun v => ⟨el.vr, v⟩)
  else none

/-- Relation between the input and output datasets at one tag coordinate
after a successful date-shift loop. -/
def tagOutcome (days : Int) (ds final : Dataset) (t : Nat × Nat) : Prop :=
  alGet final t = (alGet ds t).bind (fun el => shiftedElem days el)

/-- A tag the date-shift loop gets past without aborting: absent, or
present with an element the loop can rewrite. -/
def shiftableAt (days : Int) (ds : Dataset) (t : Nat × Nat) : Prop :=
  ∀ el, alGet ds t = some el → (shiftedElem days el).isSome = true

theorem shiftTags_cons_none (days : Int) (ds : Dataset) (t : Nat × Nat)
    (rest : List (Nat × Nat)) (h : alGet ds t = none) :
    shiftTags days ds (t :: rest) = shiftTags days ds rest := by
  simp [shiftTags, h]

theorem shiftTags_cons_empty (days : Int) (ds : Dataset) (t : Nat × Nat)
    (rest : List (Nat × Nat)) (el : DElem) (h : alGet ds t = some el)
    (hv : el.value = "") :
    shiftTags days ds (t :: rest) = shiftTags days ds rest := by
  simp [shiftTags, h, hv]

theorem shiftTags_cons_da (days : Int) (ds : Dataset) (t : Nat × Nat)
    (rest : List (Nat × Nat)) (el : DElem) (v : String)
    (h : alGet ds t = some el) (hv : el.value ≠ "") (hvr : el.vr = "DA")
    (hs : shift_da el.value days = some v) :
    shiftTags days ds (t :: rest) =
      shiftTags days (alInsert ds t ⟨el.vr, v⟩) rest := by
  simp [shiftTags, h, hv, hvr, hs]

theorem shiftTags_cons_da_fail (days : Int) (ds : Dataset) (t : Nat × Nat)
    (rest : List (Nat × Nat)) (el : DElem) (h : alGet ds t = some el)
    (hv : el.value ≠ "") (hvr : el.vr = "DA")
    (hs : shift_da el.value days = none) :
    shiftTags days ds (t :: rest) = .error .raisedShift := by
  simp [shiftTags, h, hv, hvr, hs]

theorem shiftTags_cons_dt (days : Int) (ds : Dataset) (t : Nat × Nat)
    (rest : List (Nat × Nat)) (el : DElem) (v : String)
    (h : alGet ds t = some el) (hv : el.value ≠ "") (hvr1 : el.vr ≠ "DA")
    (hvr2 : el.vr = "DT") (hs : shift_dt el.value days = some v) :
    shiftTags days ds (t :: rest) =
      shiftTags days (alInsert ds t ⟨el.vr, v⟩) rest := by
  simp [shiftTags, h, hv, hvr1, hvr2, hs]

theorem shiftTags_cons_dt_fail (days : Int) (ds : Dataset) (t : Nat × Nat)
    (rest : List (Nat × Nat)) (el : DElem) (h : alGet ds t = some el)
    (hv : el.value ≠ "") (hvr1 : el.vr ≠ "DA") (hvr2 : el.vr = "DT")
    (hs : shift_dt el.value days = none) :
    shiftTags days ds (t :: rest) = .error .raisedShift := by
  simp [shiftTags, h, hv, hvr1, hvr2, hs]

theorem shiftTags_cons_unhandled (days : Int) (ds : Dataset) (t : Nat × Nat)
    (rest : List (Nat × Nat)) (el : DElem) (h : alGet ds t = some el)
    (hv : el.value ≠ "") (hvr1 : el.vr ≠ "DA") (hvr2 : el.vr ≠ "DT") :
    shiftTags days ds (t :: rest) = .error .unhandledVR := by
  simp [shiftTags, h, hv, hvr1, hvr2]

theorem shiftTags_ok_not_mem (days : Int) :
    ∀ (tags : List (Nat × Nat)) (ds final : Dataset),
      shiftTags days ds tags = .ok final →
      ∀ t, t ∉ tags → alGet final t = alGet ds t := by
  intro tags
  induction tags with
  | nil =>
    intro ds final h t ht
    have h0 : shiftTags days ds ([] : List (Nat × Nat)) = Except.ok ds := by
      simp [shiftTags]
    rw [h0] at h
    injection h with h2
    rw [← h2]
  | cons t0 rest ih =>
    intro ds final h t ht
    have hne : t0 ≠ t := by
      intro he
      exact ht (he ▸ List.mem_cons_self t0 rest)
    have htr : t ∉ rest := fun hm => ht (List.mem_cons_of_mem t0 hm)
    cases halg : alGet ds t0 with
    | none =>
      rw [shiftTags_cons_none days ds t0 rest halg] at h
      exact ih ds final h t htr
    | some el =>
      by_cases hv : el.value = ""
      · rw [shiftTags_cons_empty days ds t0 rest el halg hv] at h
        exact ih ds final h t htr
      · by_cases hvr : el.vr = "DA"
        · cases hs : shift_da el.value days with
          | none =>
            rw [shiftTags_cons_da_fail days ds t0 rest el halg hv hvr hs] at h
            exact Except.noConfusion h
          | some v =>
            rw [shiftTags_cons_da days ds t0 rest el v halg hv hvr hs] at h
            rw [ih _ final h t htr]
            exact alGet_alInsert_ne ds t0 ⟨el.vr, v⟩ t hne
        · by_cases hvr2 : el.vr = "DT"
          · cases hs : shift_dt el.value days with
            | none =>
              rw [shiftTags_cons_dt_fail days ds t0 rest el halg hv hvr hvr2 hs] at h
              exact Except.noConfusion h
            | some v =>
              rw [shiftTags_cons_dt days ds t0 rest el v halg hv hvr hvr2 hs] at h
              rw [ih _ final h t htr]
              exact alGet_alInsert_ne ds t0 ⟨el.vr, v⟩ t hne
          · rw [shiftTags_cons_unhandled days ds t0 rest el halg hv hvr hvr2] at h
            exact Except.noConfusion h

theorem shiftTags_ok_outcome (days : Int) :
    ∀ (tags : List (Nat × Nat)), tags.Nodup →
      ∀ (ds final : Dataset), shiftTags days ds tags = .ok final →
      ∀ t ∈ tags, tagOutcome days ds final t := by
  intro tags
  induction tags with
  | nil =>
    intro _ ds final _ t ht
    exact absurd ht (List.not_mem_nil t)
  | cons t0 rest ih =>
    intro hnd ds final h t ht
    obtain ⟨hnd0, hndr⟩ := List.nodup_cons.mp hnd
    cases halg : alGet ds t0 with
    | none =>
      rw [shiftTags_cons_none days ds t0 rest halg] at h
      rcases List.mem_cons.mp ht with rfl | hmem
      · unfold tagOutcome
        rw [shiftTags_ok_not_mem days rest ds final h t hnd0, halg]
        rfl
      · exact ih hndr ds final h t hmem
    | some el =>
      by_cases hv : el.value = ""
      · rw [shiftTags_cons_empty days ds t0 rest el halg hv] at h
        rcases List.mem_cons.mp ht with rfl | hmem
        · unfold tagOutcome
          rw [shiftTags_ok_not_mem days rest ds final h t hnd0, halg]
          simp [shiftedElem, hv]
        · exact ih hndr ds final h t hmem
      · by_cases hvr : el.vr = "DA"
        · cases hs : shift_da el.value days with
          | none =>
            rw [shiftTags_cons_da_fail days ds t0 rest el halg hv hvr hs] at h
            exact Except.noConfusion h
          | some v =>
            rw [shiftTags_cons_da days ds t0 rest el v halg hv hvr hs] at h
            rcases List.mem_cons.mp ht with rfl | hmem
            · unfold tagOutcome
              rw [shiftTags_ok_not_mem days rest _ final h t hnd0,
                alGet_alInsert_self ds t ⟨el.vr, v⟩, halg]
              simp [shiftedElem, hv, hvr, hs]
            · have hne : t0 ≠ t := fun he => hnd0 (he ▸ hmem)
              have hout := ih hndr _ final h t hmem
              unfold tagOutcome at hout ⊢
              rw [alGet_alInsert_ne ds t0 ⟨el.vr, v⟩ t hne] at hout
              exact hout
        · by_cases hvr2 : el.vr = "DT"
          · cases hs : shift_dt el.value days with
            | none =>
              rw [shiftTags_cons_dt_fail days ds t0 rest el halg hv hvr hvr2 hs] at h
              exact Except.noConfusion h
            | some v =>
              rw [shiftTags_cons_dt days ds t0 rest el v halg hv hvr hvr2 hs] at h
              rcases List.mem_cons.mp ht with rfl | hmem
              · unfold tagOutcome
                rw [shiftTags_ok_not_mem days rest _ final h t hnd0,
                  alGet_alInsert_self ds t ⟨el.vr, v⟩, halg]
                simp [shiftedElem, hv, hvr, hvr2, hs]
              · have hne : t0 ≠ t := fun he => hnd0 (he ▸ hmem)
                have hout := ih hndr _ final h t hmem
                unfold tagOutcome at hout ⊢
                rw [alGet_alInsert_ne ds t0 ⟨el.vr, v⟩ t hne] at hout
                exact hout
          · rw [shiftTags_cons_unhandled days ds t0 rest el halg hv hvr hvr2] at h
            exact Except.noConfusion h

/-- Decidable form of shiftableAt: the date-shift loop gets past this tag
without raising or aborting. -/
def shiftableAtB (days : Int) (ds : Dataset) (t : Nat × Nat) : Bool :=
  match alGet ds t with
  | none => true
  | some el => (shiftedElem days el).isSome

theorem shiftTags_ok_of_shiftable (days : Int) :
    ∀ (tags : List (Nat × Nat)) (ds : Dataset), tags.Nodup →
      (∀ t ∈ tags, shiftableAtB days ds t = true) →
      ∃ final, shiftTags days ds tags = .ok final := by
  intro tags
  induction tags with
  | nil =>
    intro ds _ _
    exact ⟨ds, by simp [shiftTags]⟩
  | cons t0 rest ih =>
    intro ds hnd hsh
    obtain ⟨hnd0, hndr⟩ := List.nodup_cons.mp hnd
    have hrest : ∀ t ∈ rest, shiftableAtB days ds t = true :=
      fun t ht => hsh t (List.mem_cons_of_mem t0 ht)
    cases halg : alGet ds t0 with
    | none =>
      rw [shiftTags_cons_none days ds t0 rest halg]
      exact ih ds hndr hrest
    | some el =>
      have hel : (shiftedElem days el).isSome = true := by
        have hx := hsh t0 (List.mem_cons_self t0 rest)
        unfold shiftableAtB at hx
        rw [halg] at hx
        exact hx
      by_cases hv : el.value = ""
      · rw [shiftTags_cons_empty days ds t0 rest el halg hv]
        exact ih ds hndr hrest
      · by_cases hvr : el.vr = "DA"
        · cases hs : shift_da el.value days with
          | none =>
            exfalso
            simp [shiftedElem, hv, hvr, hs] at hel
          | some v =>
            rw [shiftTags_cons_da days ds t0 rest el v halg hv hvr hs]
            refine ih (alInsert ds t0 ⟨el.vr, v⟩) hndr ?_
            intro t ht
            have hne : t0 ≠ t := fun he => hnd0 (he ▸ ht)
            have := hrest t ht
            unfold shiftableAtB at this ⊢
            rw [alGet_alInsert_ne ds t0 ⟨el.vr, v⟩ t hne]
            exact this
        · by_cases hvr2 : el.vr = "DT"
          · cases hs : shift_dt el.value days with
            | none =>
              exfalso
              simp [shiftedElem, hv, hvr, hvr2, hs] at hel
            | some v =>
              rw [shiftTags_cons_dt days ds t0 rest el v halg hv hvr hvr2 hs]
              refine ih (alInsert ds t0 ⟨el.vr, v⟩) hndr ?_
              intro t ht
              have hne : t0 ≠ t := fun he => hnd0 (he ▸ ht)
              have := hrest t ht
              unfold shiftableAtB at this ⊢
              rw [alGet_alInsert_ne ds t0 ⟨el.vr, v⟩ t hne]
              exact this
          · exfalso
            simp [shiftedElem, hv, hvr, hvr2] at hel

/-- Decidable predicate: at this tag the loop would hit the unhandled-VR
else branch (present, non-empty, VR neither DA nor DT). -/
def isBadVRAt (ds : Dataset) (t : Nat × Nat) : Bool :=
  match alGet ds t with
  | none => false
  | some el => !(el.value == "") && !(el.vr == "DA") && !(el.vr == "DT")

/-- Decidable predicate: at this tag a DA or DT shift, if attempted, would
succeed (absent, empty, unhandled-VR and well-formed DA/DT tags all pass). -/
def noRaiseAt (days : Int) (ds : Dataset) (t : Nat × Nat) : Bool :=
  match alGet ds t with
  | none => true
  | some el =>
    if el.value = "" then true
    else if el.vr = "DA" then (shift_da el.value days).isSome
    else if el.vr = "DT" then (shift_dt el.value days).isSome
    else true

theorem shiftTags_unhandled (days : Int) :
    ∀ (tags : List (Nat × Nat)) (ds : Dataset), tags.Nodup →
      (∀ t ∈ tags, noRaiseAt days ds t = true) →
      (∃ t ∈ tags, isBadVRAt ds t = true) →
      shiftTags days ds tags = .error .unhandledVR := by
  intro tags
  induction tags with
  | nil =>
    intro ds _ _ hbad
    obtain ⟨t, ht, -⟩ := hbad
    exact absurd ht (List.not_mem_nil t)
  | cons t0 rest ih =>
    intro ds hnd hok hbad
    obtain ⟨hnd0, hndr⟩ := List.nodup_cons.mp hnd
    have hokr : ∀ t ∈ rest, noRaiseAt days ds t = true :=
      fun t ht => hok t (List.mem_cons_of_mem t0 ht)
    cases halg : alGet ds t0 with
    | none =>
      rw [shiftTags_cons_none days ds t0 rest halg]
      refine ih ds hndr hokr ?_
      obtain ⟨t, ht, hb⟩ := hbad
      rcases List.mem_cons.mp ht with rfl | hmem
      · unfold isBadVRAt at hb
        rw [halg] at hb
        exact absurd hb (by simp)
      · exact ⟨t, hmem, hb⟩
    | some el =>
      by_cases hbad0 : el.value ≠ "" ∧ el.vr ≠ "DA" ∧ el.vr ≠ "DT"
      · exact shiftTags_cons_unhandled days ds t0 rest el halg hbad0.1
          hbad0.2.1 hbad0.2.2
      · have hbadr : ∃ t ∈ rest, isBadVRAt ds t = true := by
          obtain ⟨t, ht, hb⟩ := hbad
          rcases List.mem_cons.mp ht with rfl | hmem
          · exfalso
            unfold isBadVRAt at hb
            rw [halg] at hb
            simp only [Bool.and_eq_true, Bool.not_eq_true', beq_eq_false_iff_ne] at hb
            exact hbad0 ⟨hb.1.1, hb.1.2, hb.2⟩
          · exact ⟨t, hmem, hb⟩
        have hel : noRaiseAt days ds t0 = true := hok t0 (List.mem_cons_self t0 rest)
        simp only [noRaiseAt, halg] at hel
        by_cases hv : el.value = ""
        · rw [shiftTags_cons_empty days ds t0 rest el halg hv]
          exact ih ds hndr hokr hbadr
        · by_cases hvr : el.vr = "DA"
          · rw [if_neg hv, if_pos hvr] at hel
            obtain ⟨v, hs⟩ := Option.isSome_iff_exists.mp hel
            rw [shiftTags_cons_da days ds t0 rest el v halg hv hvr hs]
            refine ih (alInsert ds t0 ⟨el.vr, v⟩) hndr ?_ ?_
            · intro t ht
              have hne : t0 ≠ t := fun he => hnd0 (he ▸ ht)
              have := hokr t ht
              unfold noRaiseAt at this ⊢
              rw [alGet_alInsert_ne ds t0 ⟨el.vr, v⟩ t hne]
              exact this
            · obtain ⟨t, ht, hb⟩ := hbadr
              have hne : t0 ≠ t := fun he => hnd0 (he ▸ ht)
              refine ⟨t, ht, ?_⟩
              unfold isBadVRAt at hb ⊢
              rw [alGet_alInsert_ne ds t0 ⟨el.vr, v⟩ t hne]
              exact hb
          · by_cases hvr2 : el.vr = "DT"
            · rw [if_neg hv, if_neg hvr, if_pos hvr2] at hel
              obtain ⟨v, hs⟩ := Option.isSome_iff_exists.mp hel
              rw [shiftTags_cons_dt days ds t0 rest el v halg hv hvr hvr2 hs]
              refine ih (alInsert ds t0 ⟨el.vr, v⟩) hndr ?_ ?_
              · intro t ht
                have hne : t0 ≠ t := fun he => hnd0 (he ▸ ht)
                have := hokr t ht
                unfold noRaiseAt at this ⊢
                rw [alGet_alInsert_ne ds t0 ⟨el.vr, v⟩ t hne]
                exact this
              · obtain ⟨t, ht, hb⟩ := hbadr
                have hne : t0 ≠ t := fun he => hnd0 (he ▸ ht)
                refine ⟨t, ht, ?_⟩
                unfold isBadVRAt at hb ⊢
                rw [alGet_alInsert_ne ds t0 ⟨el.vr, v⟩ t hne]
                exact hb
            · exfalso
              exact hbad0 ⟨hv, hvr, hvr2⟩

theorem alGet_setAttrValue_self (ds : Dataset) (t : Nat × Nat) (dvr v : String) :
    ∃ vr0, alGet (setAttrValue ds t dvr v) t = some ⟨vr0, v⟩ := by
  unfold setAttrValue
  cases halg : alGet ds t with
  | some el => exact ⟨el.vr, alGet_alInsert_self ds t ⟨el.vr, v⟩⟩
  | none => exact ⟨dvr, alGet_alInsert_self ds t ⟨dvr, v⟩⟩

theorem alGet_setAttrValue_ne (ds : Dataset) (t : Nat × Nat) (dvr v : String)
    (t' : Nat × Nat) (h : t ≠ t') :
    alGet (setAttrValue ds t dvr v) t' = alGet ds t' := by
  unfold setAttrValue
  cases halg : alGet ds t with
  | some el => exact alGet_alInsert_ne ds t ⟨el.vr, v⟩ t' h
  | none => exact alGet_alInsert_ne ds t ⟨dvr, v⟩ t' h

theorem pidTag_ne_accTag : pidTag ≠ accTag := by decide

theorem pidTag_not_shift : pidTag ∉ date_shift_tags := by decide

theorem accTag_not_shift : accTag ∉ date_shift_tags := by decide

theorem date_shift_tags_nodup : date_shift_tags.Nodup := by decide

theorem alGet_deidDs_pid (ds : Dataset) (pe : PersonalEntry) (trial : String) :
    ∃ vr0, alGet (deidDs ds pe trial) pidTag = some ⟨vr0, pe.person_id⟩ := by
  unfold deidDs
  rw [alGet_setAttrValue_ne (setAttrValue ds pidTag "LO" pe.person_id) accTag
    "SH" trial pidTag (by decide)]
  exact alGet_setAttrValue_self ds pidTag "LO" pe.person_id

theorem alGet_deidDs_acc (ds : Dataset) (pe : PersonalEntry) (trial : String) :
    ∃ vr0, alGet (deidDs ds pe trial) accTag = some ⟨vr0, trial⟩ := by
  unfold deidDs
  exact alGet_setAttrValue_self (setAttrValue ds pidTag "LO" pe.person_id)
    accTag "SH" trial

theorem alGet_deidDs_other (ds : Dataset) (pe : PersonalEntry) (trial : String)
    (t : Nat × Nat) (h1 : t ≠ pidTag) (h2 : t ≠ accTag) :
    alGet (deidDs ds pe trial) t = alGet ds t := by
  unfold deidDs
  rw [alGet_setAttrValue_ne (setAttrValue ds pidTag "LO" pe.person_id) accTag
    "SH" trial t (Ne.symm h2),
    alGet_setAttrValue_ne ds pidTag "LO" pe.person_id t (Ne.symm h1)]

theorem process_unmatched (ds : Dataset) (im : ImageMap) (pm : PersonalMap)
    (h : alGet pm (trimmedPid ds) = none ∨
      alGet im (trimmedPid ds, trimmedAcc ds) = none) :
    process_dicom_file ds im pm = .unprocessed .unmatchedIdentifiers := by
  unfold process_dicom_file
  cases h1 : alGet pm (trimmedPid ds) with
  | none => cases h2 : alGet im (trimmedPid ds, trimmedAcc ds) <;> rfl
  | some pe =>
    cases h2 : alGet im (trimmedPid ds, trimmedAcc ds) with
    | none => rfl
    | some trial =>
      exfalso
      rcases h with h | h
      · rw [h1] at h
        exact Option.noConfusion h
      · rw [h2] at h
        exact Option.noConfusion h

theorem process_matched (ds : Dataset) (im : ImageMap) (pm : PersonalMap)
    (pe : PersonalEntry) (trial : String)
    (h1 : alGet pm (trimmedPid ds) = some pe)
    (h2 : alGet im (trimmedPid ds, trimmedAcc ds) = some trial) :
    process_dicom_file ds im pm =
      match shiftTags pe.days_shifted (deidDs ds pe trial) date_shift_tags with
      | .ok final => .processed final
      | .error .unhandledVR => .unprocessed .unhandledValueType
      | .error .raisedShift => .raised := by
  unfold process_dicom_file
  rw [h1, h2]

theorem process_matched_ne_unmatched (ds : Dataset) (im : ImageMap)
    (pm : PersonalMap) (pe : PersonalEntry) (trial : String)
    (h1 : alGet pm (trimmedPid ds) = some pe)
    (h2 : alGet im (trimmedPid ds, trimmedAcc ds) = some trial) :
    process_dicom_file ds im pm ≠ .unprocessed .unmatchedIdentifiers := by
  rw [process_matched ds im pm pe trial h1 h2]
  cases h3 : shiftTags pe.days_shifted (deidDs ds pe trial) date_shift_tags with
  | ok final => simp
  | error e => cases e <;> simp

theorem process_unmatched_iff (ds : Dataset) (im : ImageMap) (pm : PersonalMap) :
    process_dicom_file ds im pm = .unprocessed .unmatchedIdentifiers ↔
      (alGet pm (trimmedPid ds) = none ∨
        alGet im (trimmedPid ds, trimmedAcc ds) = none) := by
  constructor
  · intro h
    by_contra hc
    push_neg at hc
    obtain ⟨hpm, him⟩ := hc
    obtain ⟨pe, hpe⟩ := Option.ne_none_iff_exists'.mp hpm
    obtain ⟨trial, htr⟩ := Option.ne_none_iff_exists'.mp him
    exact process_matched_ne_unmatched ds im pm pe trial hpe htr h
  · exact process_unmatched ds im pm

theorem tagOutcome_deidDs (ds : Dataset) (pe : PersonalEntry) (trial : String)
    (final : Dataset) (days : Int) (t : Nat × Nat) (ht : t ∈ date_shift_tags) :
    tagOutcome days (deidDs ds pe trial) final t ↔ tagOutcome days ds final t := by
  unfold tagOutcome
  rw [alGet_deidDs_other ds pe trial t (fun he => pidTag_not_shift (he ▸ ht))
    (fun he => accTag_not_shift (he ▸ ht))]

/-- A processed-tree artifact is complete: both identifiers are replaced by
their mapped values and every listed date tag holds exactly the shifted
value of the original (absent tags stay absent, empty tags stay as they
were). -/
def fullyDeidentified (ds final : Dataset) (im : ImageMap) (pm : PersonalMap) :
    Prop :=
  ∃ pe trial,
    alGet pm (trimmedPid ds) = some pe ∧
    alGet im (trimmedPid ds, trimmedAcc ds) = some trial ∧
    (∃ e, alGet final pidTag = some e ∧ e.value = pe.person_id) ∧
    (∃ e, alGet final accTag = some e ∧ e.value = trial) ∧
    ∀ t ∈ date_shift_tags, tagOutcome pe.days_shifted ds final t

theorem process_ok_fullyDeid (ds : Dataset) (im : ImageMap) (pm : PersonalMap)
    (final : Dataset) (h : process_dicom_file ds im pm = .processed final) :
    fullyDeidentified ds final im pm := by
  cases h1 : alGet pm (trimmedPid ds) with
  | none =>
    rw [process_unmatched ds im pm (Or.inl h1)] at h
    exact Disposition.noConfusion h
  | some pe =>
    cases h2 : alGet im (trimmedPid ds, trimmedAcc ds) with
    | none =>
      rw [process_unmatched ds im pm (Or.inr h2)] at h
      exact Disposition.noConfusion h
    | some trial =>
      rw [process_matched ds im pm pe trial h1 h2] at h
      cases h3 : shiftTags pe.days_shifted (deidDs ds pe trial) date_shift_tags with
      | error e =>
        rw [h3] at h
        cases e <;> exact Disposition.noConfusion h
      | ok f =>
        rw [h3] at h
        have hf : f = final := by
          simpa using h
        subst hf
        refine ⟨pe, trial, h1, h2, ?_, ?_, ?_⟩
        · obtain ⟨vr0, hget⟩ := alGet_deidDs_pid ds pe trial
          refine ⟨⟨vr0, pe.person_id⟩, ?_, rfl⟩
          rw [shiftTags_ok_not_mem pe.days_shifted date_shift_tags _ f h3
            pidTag pidTag_not_shift, hget]
        · obtain ⟨vr0, hget⟩ := alGet_deidDs_acc ds pe trial
          refine ⟨⟨vr0, trial⟩, ?_, rfl⟩
          rw [shiftTags_ok_not_mem pe.days_shifted date_shift_tags _ f h3
            accTag accTag_not_shift, hget]
        · intro t ht
          have hout := shiftTags_ok_outcome pe.days_shifted date_shift_tags
            date_shift_tags_nodup _ f h3 t ht
          exact (tagOutcome_deidDs ds pe trial f pe.days_shifted t ht).mp hout

theorem shiftableAtB_deidDs (ds : Dataset) (pe : PersonalEntry) (trial : String)
    (days : Int) (t : Nat × Nat) (ht : t ∈ date_shift_tags) :
    shiftableAtB days (deidDs ds pe trial) t = shiftableAtB days ds t := by
  unfold shiftableAtB
  rw [alGet_deidDs_other ds pe trial t (fun he => pidTag_not_shift (he ▸ ht))
    (fun he => accTag_not_shift (he ▸ ht))]

theorem noRaiseAt_deidDs (ds : Dataset) (pe : PersonalEntry) (trial : String)
    (days : Int) (t : Nat × Nat) (ht : t ∈ date_shift_tags) :
    noRaiseAt days (deidDs ds pe trial) t = noRaiseAt days ds t := by
  unfold noRaiseAt
  rw [alGet_deidDs_other ds pe trial t (fun he => pidTag_not_shift (he ▸ ht))
    (fun he => accTag_not_shift (he ▸ ht))]

theorem isBadVRAt_deidDs (ds : Dataset) (pe : PersonalEntry) (trial : String)
    (t : Nat × Nat) (ht : t ∈ date_shift_tags) :
    isBadVRAt (deidDs ds pe trial) t = isBadVRAt ds t := by
  unfold isBadVRAt
  rw [alGet_deidDs_other ds pe trial t (fun he => pidTag_not_shift (he ▸ ht))
    (fun he => accTag_not_shift (he ▸ ht))]

theorem loadPersonal_none (r : PersonalRow) :
    ∀ (rows : List PersonalRow) (m : PersonalMap), r ∈ rows →
      parseIntPy r.Days_Shifted = none → loadPersonal rows m = none := by
  intro rows
  induction rows with
  | nil =>
    intro m h _
    exact absurd h (List.not_mem_nil r)
  | cons r0 rest ih =>
    intro m hmem hp
    rcases List.mem_cons.mp hmem with rfl | hmem2
    · simp [loadPersonal, hp]
    · cases hp0 : parseIntPy r0.Days_Shifted with
      | none => simp [loadPersonal, hp0]
      | some n =>
        simp only [loadPersonal, hp0]
        exact ih _ hmem2 hp

theorem runAll_cons_raised (im : ImageMap) (pm : PersonalMap) (rel : String)
    (ds : Dataset) (rest : List (String × Dataset))
    (h : process_dicom_file ds im pm = .raised) :
    runAll im pm ((rel, ds) :: rest) = ([], true) := by
  simp [runAll, h]

/-- Matched record whose birth-date tag holds a non-date DA value: shift_da
raises ValueError, which process_dicom_file does not catch. -/
def c1Ds : Dataset :=
  [((0x0010, 0x0020), ⟨"LO", "P1"⟩), ((0x0008, 0x0050), ⟨"SH", "A1"⟩),
   ((0x0008, 0x0020), ⟨"DA", "baddate!"⟩)]

/-- C1 counterexample: a record passed to process_dicom_file for which
NEITHER of the two claimed outcomes is persisted.  The record matches both
lookup maps but carries an unparseable DA value, so shift_da raises, the
exception escapes process_dicom_file, and nothing is written to either
tree — refuting "exactly one of two outcomes is persisted" for every input
file. -/
theorem claim1_counterexample :
    process_dicom_file c1Ds scenarioIm scenarioPm = Disposition.raised ∧
    persistOf "p/f.dcm" (process_dicom_file c1Ds scenarioIm scenarioPm) =
      PersistedArtifact.nothingWritten := by decide

/-- C1 (amended): for every input file, AT MOST one of the two outcomes is
persisted: when process_dicom_file raises nothing is written; when it
returns the unprocessed disposition only the original bytes are copied;
when it returns the processed disposition only the fully de-identified
record (identifiers substituted, every matched date field shifted) is
serialized.  A partially de-identified record is never written to either
tree. -/
theorem claim1_theorem :
    ∀ (relPath : String) (ds : Dataset) (im : ImageMap) (pm : PersonalMap),
      (process_dicom_file ds im pm = .raised ∧
        persistOf relPath (process_dicom_file ds im pm) = .nothingWritten) ∨
      (∃ r, process_dicom_file ds im pm = .unprocessed r ∧
        persistOf relPath (process_dicom_file ds im pm) = .originalCopy relPath) ∨
      (∃ final, process_dicom_file ds im pm = .processed final ∧
        persistOf relPath (process_dicom_file ds im pm) =
          .deidentified relPath final ∧
        fullyDeidentified ds final im pm) := by
  intro relPath ds im pm
  cases hp : process_dicom_file ds im pm with
  | raised => exact Or.inl ⟨rfl, rfl⟩
  | unprocessed r => exact Or.inr (Or.inl ⟨r, rfl, rfl⟩)
  | processed final =>
    exact Or.inr (Or.inr ⟨final, rfl, rfl, process_ok_fullyDeid ds im pm final hp⟩)

/-- Matched record with a DT value of 8 characters, too short for the DT
pattern (which needs at least 9 characters: four year digits and one digit
for each of the five remaining fields). -/
def c2Ds : Dataset :=
  [((0x0010, 0x0020), ⟨"LO", "P1"⟩), ((0x0008, 0x0050), ⟨"SH", "A1"⟩),
   ((0x0008, 0x002a), ⟨"DT", "20230101"⟩)]

/-- C2 counterexample: a record with a DT target value shorter than 14
characters is NOT routed to the unprocessed tree and the run does NOT
continue.  The shift_dt failure propagates out of process_dicom_file
(there is no try/except anywhere), so the disposition is raised and the
per-file loop aborts before reaching the next file — refuting "caught by
the caller's anomaly path, routed to the unprocessed tree, run
continues". -/
theorem claim2_counterexample :
    process_dicom_file c2Ds scenarioIm scenarioPm = Disposition.raised ∧
    runAll scenarioIm scenarioPm [("a.dcm", c2Ds), ("b.dcm", scenarioDs)] =
      ([], true) := by decide

/-- C2 (amended): a DT value shorter than 9 characters always makes
shift_dt fail, but values of 9 to 13 characters need not fail: the
flexible strptime field widths let the 13-character "2023010112345" parse
with a one-digit second.  When shift_dt does fail, the failure is an
uncaught exception: a file on which process_dicom_file raises produces no
disposition at all and the run aborts instead of continuing with the next
file. -/
theorem claim2_theorem :
    (∀ (s : String) (days : Int), s.data.length < 9 →
      shift_dt s days = none) ∧
    shift_dt "2023010112345" 10 = some "20230111123405" ∧
    (∀ (im : ImageMap) (pm : PersonalMap) (rel : String) (ds : Dataset)
      (rest : List (String × Dataset)),
      process_dicom_file ds im pm = .raised →
      runAll im pm ((rel, ds) :: rest) = ([], true)) :=
  ⟨shift_dt_short, by decide, runAll_cons_raised⟩

/-- Witness for C2 at concrete inputs. -/
theorem claim2_witness :
    shift_dt "1202" 7 = none ∧
    runAll scenarioIm scenarioPm [("w.dcm", c2Ds)] = ([], true) :=
  ⟨claim2_theorem.1 ("1202") 7 (by decide),
   claim2_theorem.2.2 scenarioIm scenarioPm ("w.dcm") c2Ds [] (by decide)⟩

/-- C3: a record failing either lookup is dispositioned unprocessed with
reason unmatched identifiers, before any substitution or date shift, and
the persisted artifact is the byte-for-byte copy of the original at the
same relative path under the unprocessed root. -/
theorem claim3_theorem :
    ∀ (relPath : String) (ds : Dataset) (im : ImageMap) (pm : PersonalMap),
      (alGet pm (trimmedPid ds) = none ∨
        alGet im (trimmedPid ds, trimmedAcc ds) = none) →
      process_dicom_file ds im pm = .unprocessed .unmatchedIdentifiers ∧
      persistOf relPath (process_dicom_file ds im pm) =
        .originalCopy relPath := by
  intro relPath ds im pm h
  have hp := process_unmatched ds im pm h
  refine ⟨hp, ?_⟩
  rw [hp]
  rfl

/-- Record whose PatientID is absent from the lookup maps. -/
def c3Ds : Dataset := [((0x0010, 0x0020), ⟨"LO", "NOPE"⟩)]

/-- Witness for C3 at a concrete unmatched record. -/
theorem claim3_witness :
    process_dicom_file c3Ds scenarioIm scenarioPm =
      .unprocessed .unmatchedIdentifiers ∧
    persistOf "x/y.dcm" (process_dicom_file c3Ds scenarioIm scenarioPm) =
      .originalCopy "x/y.dcm" :=
  claim3_theorem ("x/y.dcm") c3Ds scenarioIm scenarioPm (by decide)

/-- Matched record whose birth-date tag (0010,0030) carries the recognized
DA category but an unparseable value. -/
def c4Ds : Dataset :=
  [((0x0010, 0x0020), ⟨"LO", "P1"⟩), ((0x0008, 0x0050), ⟨"SH", "A1"⟩),
   ((0x0010, 0x0030), ⟨"DA", "2023XX01"⟩)]

/-- Unmatched record carrying a present, non-empty target tag of
unrecognized VR. -/
def c5aDs : Dataset := [((0x0018, 0x1012), ⟨"PN", "Someone"⟩)]

/-- Matched record where an earlier listed tag raises before the loop ever
reaches the unrecognized-VR tag. -/
def c5bDs : Dataset :=
  [((0x0010, 0x0020), ⟨"LO", "P1"⟩), ((0x0008, 0x0050), ⟨"SH", "A1"⟩),
   ((0x0008, 0x0012), ⟨"DA", "junkjunk"⟩),
   ((0x0018, 0x1012), ⟨"PN", "Someone"⟩)]

/-- Matched record whose only populated target tag has VR PN. -/
def c5wDs : Dataset :=
  [((0x0010, 0x0020), ⟨"LO", "P1"⟩), ((0x0008, 0x0050), ⟨"SH", "A1"⟩),
   ((0x0018, 0x1012), ⟨"PN", "X"⟩)]

/-- C6 counterexample: two refutations of the unconditional round trip.
"00500115" is a valid 8-digit date string (the year 50), but the program
renders years below 1000 without zero padding: the forward shift by 0 days
returns the 6-character "500115", and the round-trip expression reparses
it as the date 5001-01-05, yielding "50010105" rather than the original
string.  Independently, shifting "99991231" forward by one day leaves the
supported year range of the date library (OverflowError in Python, none in
the model), so the round-trip expression yields no value at all. -/
theorem claim6_counterexample :
    shift_da "00500115" 0 = some "500115" ∧
    Option.bind (shift_da "00500115" 0) (fun e => shift_da e (-0)) =
      some "50010105" ∧
    shift_da "99991231" 1 = none := by decide

/-- C6 (amended): for every 8-digit date string with a nonzero leading
digit (so the year is at least 1000) whose forward shift succeeds and
still renders as 8 characters, shifting the result by the negated offset
returns the original string. -/
theorem claim6_theorem :
    ∀ (s : String) (days : Int) (e : String),
      shift_da s days = some e → s.data.length = 8 →
      allDigits s.data = true → s.data.head? ≠ some (Char.ofNat 48) →
      e.data.length = 8 → shift_da e (-days) = some s :=
  shift_da_roundtrip

/-- Witness for C6 at a concrete date and offset. -/
theorem claim6_witness :
    shift_da "20230101" 10 = some "20230111" ∧
    shift_da "20230111" (-10) = some "20230101" :=
  ⟨by decide, claim6_theorem ("20230101") 10 ("20230111") (by decide)
    (by decide) (by decide) (by decide) (by decide)⟩

/-- C8: a listed target tag that is absent from the record or present with
an empty value is silently skipped: the loop result over the tag list
starting at this tag is exactly the result over the remaining tags, so no
shift is attempted, no error arises from the skip, and the skip alone
never routes the record to the unprocessed tree. -/
theorem claim8_theorem :
    ∀ (days : Int) (ds : Dataset) (t : Nat × Nat) (rest : List (Nat × Nat)),
      t ∈ date_shift_tags →
      (alGet ds t = none ∨ ∃ el, alGet ds t = some el ∧ el.value = "") →
      shiftTags days ds (t :: rest) = shiftTags days ds rest := by
  intro days ds t rest _ h
  rcases h with h | ⟨el, hel, hv⟩
  · exact shiftTags_cons_none days ds t rest h
  · exact shiftTags_cons_empty days ds t rest el hel hv

/-- Record with an empty StudyDate element. -/
def c8Ds : Dataset := [((0x0008, 0x0020), ⟨"DA", ""⟩)]

/-- Witness for C8 at a concrete record with an empty listed tag. -/
theorem claim8_witness :
    shiftTags 5 c8Ds ((0x0008, 0x0020) :: [(0x0008, 0x0021)]) =
      shiftTags 5 c8Ds [(0x0008, 0x0021)] :=
  claim8_theorem 5 c8Ds (0x0008, 0x0020) [(0x0008, 0x0021)] (by decide)
    (Or.inr ⟨⟨"DA", ""⟩, by decide, rfl⟩)

/-- C9: a personal-map row whose Days_Shifted cell does not parse as an
integer makes the whole run fail during lookup loading — before any record
is processed — rather than being skipped or deferred to per-record
processing. -/
theorem claim9_theorem :
    ∀ (imageRows : List ImageRow) (personalRows : List PersonalRow)
      (files : List (String × Dataset)) (r : PersonalRow),
      r ∈ personalRows → parseIntPy r.Days_Shifted = none →
      mainRun imageRows personalRows files = none := by
  intro iRows pRows files r hmem hp
  unfold mainRun load_lookup_tables
  rw [loadPersonal_none r pRows [] hmem hp]

/-- Personal-map row with a non-integer day offset. -/
def c9Row : PersonalRow := ⟨"P9", "S9", "ten"⟩

/-- Witness for C9 at a concrete malformed row. -/
theorem claim9_witness :
    mainRun [] [c9Row] [("f.dcm", scenarioDs)] = none :=
  claim9_theorem [] [c9Row] [("f.dcm", scenarioDs)] c9Row (by decide)
    (by decide)

/-- C10: the lookup-match decision of process_dicom_file depends only on
the whitespace-stripped PatientID and AccessionNumber: records with equal
trimmed identifiers produce the same unmatched verdict, and a record whose
trimmed identifiers hit both maps is never dispositioned as unmatched,
even when the raw values carry surrounding whitespace. -/
theorem claim10_theorem :
    (∀ (ds ds' : Dataset) (im : ImageMap) (pm : PersonalMap),
      trimmedPid ds = trimmedPid ds' → trimmedAcc ds = trimmedAcc ds' →
      (process_dicom_file ds im pm = .unprocessed .unmatchedIdentifiers ↔
        process_dicom_file ds' im pm = .unprocessed .unmatchedIdentifiers)) ∧
    (∀ (ds : Dataset) (im : ImageMap) (pm : PersonalMap),
      (alGet pm (trimmedPid ds)).isSome = true →
      (alGet im (trimmedPid ds, trimmedAcc ds)).isSome = true →
      process_dicom_file ds im pm ≠ .unprocessed .unmatchedIdentifiers) := by
  constructor
  · intro ds ds' im pm hpid hacc
    rw [process_unmatched_iff, process_unmatched_iff, hpid, hacc]
  · intro ds im pm h1 h2
    obtain ⟨pe, hpe⟩ := Option.isSome_iff_exists.mp h1
    obtain ⟨trial, htr⟩ := Option.isSome_iff_exists.mp h2
    exact process_matched_ne_unmatched ds im pm pe trial hpe htr

/-- Record whose identifiers differ from the lookup keys only by
surrounding whitespace. -/
def c10Ds : Dataset :=
  [((0x0010, 0x0020), ⟨"LO", "  P1 "⟩), ((0x0008, 0x0050), ⟨"SH", " A1"⟩)]

/-- Witness for C10: the whitespace-padded record matches like the clean
one and is not dispositioned as unmatched. -/
theorem claim10_witness :
    (process_dicom_file c10Ds scenarioIm scenarioPm =
        .unprocessed .unmatchedIdentifiers ↔
      process_dicom_file scenarioDs scenarioIm scenarioPm =
        .unprocessed .unmatchedIdentifiers) ∧
    process_dicom_file c10Ds scenarioIm scenarioPm ≠
      .unprocessed .unmatchedIdentifiers :=
  ⟨claim10_theorem.1 c10Ds scenarioDs scenarioIm scenarioPm (by decide)
      (by decide),
   claim10_theorem.2 c10Ds scenarioIm scenarioPm (by decide) (by decide)⟩

end DicomDeid
